import Mathlib

/-!
Verification of the thunk repository's natural-language specification
against a shallow embedding of its Go source.

Conventions of the embedding:
* `time.Time` is modelled as `Int` (nanoseconds on Go's monotonic-free
  wall clock); `Before`/`After` become `<`/`>`, `Sub` becomes subtraction,
  `IsZero` becomes `= 0`.
* `float64` similarity arithmetic is modelled over `ℚ` (the spec states the
  formulas over the reals; `ℚ` keeps every definition executable).
* Go maps used as *sets* are modelled as deduplicated lists or `Finset`s;
  Go maps used as *lookup tables* are modelled as association lists with
  insert-overwrite semantics, or as last-wins lookups over the insertion
  sequence, which is exactly the observable behaviour of the Go map.
* Go map iteration order is unspecified; wherever the source iterates a map
  to build a list whose *order* no claim depends on, the embedding iterates
  in first-insertion order.
-/

set_option maxHeartbeats 1600000
set_option maxRecDepth 16384

namespace ThunkSpec

/-- Model of `time.Time` (internal/ingest/git and cluster model): an instant
in nanoseconds; `0` is the zero time. -/
abbrev Time := Int

/-! ## Domain model (internal/ingest/git/model.go, cluster model) -/

/-- Go struct `git.Author`. -/
structure Author where
  name : String
  email : String
  whenAt : Time
  deriving Repr, DecidableEq

/-- Go struct `git.Diff`. -/
structure Diff where
  filePath : String
  oldPath : String
  status : String
  additions : Int
  deletions : Int
  patch : String
  isBinary : Bool
  fileType : String
  deriving Repr, DecidableEq

/-- Go struct `git.CommitStats`. -/
structure CommitStats where
  filesChanged : Int
  additions : Int
  deletions : Int
  netChange : Int
  deriving Repr, DecidableEq

/-- Go struct `git.Commit` (fields the verified code reads; the `Branch`
back-reference is non-owning and never read by the verified functions). -/
structure Commit where
  hash : String
  shortHash : String
  author : Author
  committer : Author
  message : String
  messageSubject : String
  messageBody : String
  committedAt : Time
  parentHashes : List String
  treeHash : String
  diffs : List Diff
  stats : CommitStats
  isMerge : Bool
  deriving Repr, DecidableEq

/-- Go struct `cluster.Reactions`. -/
structure Reactions where
  thumbsUp : Int := 0
  thumbsDown : Int := 0
  laugh : Int := 0
  hooray : Int := 0
  confused : Int := 0
  heart : Int := 0
  rocket : Int := 0
  eyes : Int := 0
  totalCount : Int := 0
  deriving Repr, DecidableEq

/-- Go struct `cluster.Discussion`. -/
structure Discussion where
  id : String
  dtype : String
  author : Author
  body : String
  createdAt : Time
  updatedAt : Time
  parentID : String := ""
  threadID : String := ""
  filePath : String := ""
  lineNumber : Int := 0
  commitHash : String := ""
  reviewState : String := ""
  reactions : Reactions := {}
  deriving Repr, DecidableEq

/-- Go struct `cluster.ArtifactMetadata`. -/
structure ArtifactMetadata where
  baseBranch : String := ""
  headBranch : String := ""
  additions : Int := 0
  deletions : Int := 0
  changedFiles : Int := 0
  reviewState : String := ""
  isDraft : Bool := false
  priority : String := ""
  milestone : String := ""
  dueDate : Option Time := none
  relatedArtifacts : List String := []
  deriving Repr, DecidableEq

/-- Go struct `cluster.Artifact`. -/
structure Artifact where
  id : String
  number : Int
  atype : String
  title : String := ""
  description : String := ""
  state : String := ""
  author : Author := ⟨"", "", 0⟩
  assignees : List String := []
  labels : List String := []
  createdAt : Time := 0
  updatedAt : Time := 0
  closedAt : Option Time := none
  mergedAt : Option Time := none
  discussions : List Discussion := []
  metadata : ArtifactMetadata := {}
  url : String := ""
  deriving Repr, DecidableEq

/-- Go struct `cluster.Episode`: identity, owned commits, owned artifacts. -/
structure Episode where
  id : String
  commits : List Commit
  artifacts : List Artifact
  deriving Repr, DecidableEq

/-- Go struct `cluster.RepositoryActivity` (fields read by the clustering
engine). -/
structure RepositoryActivity where
  platform : String := ""
  repositoryURL : String := ""
  repositoryName : String := ""
  owner : String := ""
  defaultBranch : String := ""
  commits : List Commit := []
  artifacts : List Artifact := []
  fetchedAt : Time := 0
  deriving Repr

/-! ## ParseCommit (internal/ingest/git/git.go)

`ParseCommit` consumes a go-git `object.Commit` plus the diffs produced by
`ParseCommitDiffs` (an external-repository walk, modelled as an input). -/

/-- Input shape of a go-git `object.Commit` as read by `ParseCommit`:
hash and tree hash strings, signatures, raw message and parent hashes. -/
structure ObjectCommit where
  hash : String
  authorSig : Author
  committerSig : Author
  message : String
  parentHashes : List String
  treeHash : String
  deriving Repr

/-- Go `parseCommitMessage`: split the message on the first newline into a
trimmed subject and a trimmed body (`strings.SplitN(message, "\n", 2)`). -/
def parseCommitMessage (message : String) : String × String :=
  match message.splitOn "\n" with
  | [] => ("", "")
  | [first] => (first.trim, "")
  | first :: rest => (first.trim, (String.intercalate "\n" rest).trim)

/-- Loop body of the stats aggregation in `ParseCommit` (git.go:232-235):
`stats.Additions += diff.Additions; stats.Deletions += diff.Deletions`. -/
def statsStep (s : CommitStats) (d : Diff) : CommitStats :=
  { s with additions := s.additions + d.additions,
           deletions := s.deletions + d.deletions }

/-- Stats aggregation of `ParseCommit` (git.go:228-236): start from
`FilesChanged = len(diffs)`, sum additions and deletions over the diffs, then
set `NetChange = Additions - Deletions`. -/
def computeStats (diffs : List Diff) : CommitStats :=
  let stats0 : CommitStats :=
    { filesChanged := diffs.length, additions := 0, deletions := 0, netChange := 0 }
  let stats1 := diffs.foldl statsStep stats0
  { stats1 with netChange := stats1.additions - stats1.deletions }

/-- Go `ParseCommit` (git.go:211): builds the domain `Commit` from the go-git
object and its parsed diffs; aggregates per-commit stats by summing the
diffs' additions and deletions in a loop. -/
def ParseCommit (oc : ObjectCommit) (diffs : List Diff) : Commit :=
  let stats := computeStats diffs
  let sb := parseCommitMessage oc.message
  { hash := oc.hash
    shortHash := (oc.hash.take 8)
    author := oc.authorSig
    committer := oc.committerSig
    message := oc.message
    messageSubject := sb.1
    messageBody := sb.2
    committedAt := oc.committerSig.whenAt
    parentHashes := oc.parentHashes
    treeHash := oc.treeHash
    diffs := diffs
    stats := stats
    isMerge := decide (1 < oc.parentHashes.length) }

lemma statsFold_additions (diffs : List Diff) (s : CommitStats) :
    (diffs.foldl statsStep s).additions = s.additions + (diffs.map Diff.additions).sum := by
  induction diffs generalizing s with
  | nil => simp
  | cons x xs ih =>
    simp only [List.foldl_cons, List.map_cons, List.sum_cons, ih, statsStep]
    ring

lemma statsFold_deletions (diffs : List Diff) (s : CommitStats) :
    (diffs.foldl statsStep s).deletions = s.deletions + (diffs.map Diff.deletions).sum := by
  induction diffs generalizing s with
  | nil => simp
  | cons x xs ih =>
    simp only [List.foldl_cons, List.map_cons, List.sum_cons, ih, statsStep]
    ring

lemma statsFold_filesChanged (diffs : List Diff) (s : CommitStats) :
    (diffs.foldl statsStep s).filesChanged = s.filesChanged := by
  induction diffs generalizing s with
  | nil => simp
  | cons x xs ih => simp only [List.foldl_cons, ih, statsStep]

/-! ## ParseArtifactID (adapter, with a model of strconv.Atoi) -/

/-- Value of a base-10 digit string (all characters assumed decimal digits). -/
def digitsVal (ds : List Char) : Nat :=
  ds.foldl (fun a c => 10 * a + (c.toNat - '0'.toNat)) 0

/-- Core of `strconv.Atoi` after the optional sign has been stripped:
requires at least one character, all decimal digits, and the value to fit a
64-bit signed integer (`ParseInt(s, 10, 0)` on a 64-bit platform). -/
def goAtoiCore (neg : Bool) (digits : List Char) : Option Int :=
  if digits.isEmpty then none
  else if ¬ digits.all Char.isDigit then none
  else if neg then
    (if digitsVal digits ≤ 2 ^ 63 then some (-(digitsVal digits : Int)) else none)
  else
    (if digitsVal digits ≤ 2 ^ 63 - 1 then some ((digitsVal digits : Int)) else none)

/-- Model of Go `strconv.Atoi`: optional `+`/`-` sign followed by one or more
decimal digits, with 64-bit range checking; anything else is an error. -/
def goAtoi (cs : List Char) : Option Int :=
  match cs with
  | [] => none
  | c :: rest =>
    if c = '-' then goAtoiCore true rest
    else if c = '+' then goAtoiCore false rest
    else goAtoiCore false (c :: rest)

/-- Go `ParseArtifactID` (adapter): accepts `"issue-{n}"` (length > 6, prefix
`issue-`) or `"pr-{n}"` (length > 3, prefix `pr-`) and parses the suffix with
`strconv.Atoi`; every other input is an error (`none`). -/
def ParseArtifactID (id : String) : Option (String × Int) :=
  if 6 < id.data.length ∧ id.data.take 6 = ("issue-").data then
    (goAtoi (id.data.drop 6)).map (fun n => ("issue", n))
  else if 3 < id.data.length ∧ id.data.take 3 = ("pr-").data then
    (goAtoi (id.data.drop 3)).map (fun n => ("pr", n))
  else none

/-- The claim's side condition, written from the spec's words: a non-empty
base-10 integer (optionally signed, as `strconv.Atoi` accepts, and within the
64-bit range it enforces). -/
def isBase10IntegerChars (s : List Char) : Prop :=
  (s ≠ [] ∧ s.all Char.isDigit ∧ digitsVal s ≤ 2 ^ 63 - 1)
  ∨ (∃ t, s = '-' :: t ∧ t ≠ [] ∧ t.all Char.isDigit ∧ digitsVal t ≤ 2 ^ 63)
  ∨ (∃ t, s = '+' :: t ∧ t ≠ [] ∧ t.all Char.isDigit ∧ digitsVal t ≤ 2 ^ 63 - 1)

/-- Same predicate on `String`. -/
def isBase10Integer (s : String) : Prop := isBase10IntegerChars s.data

lemma goAtoiCore_isSome (neg : Bool) (ds : List Char) :
    (goAtoiCore neg ds).isSome ↔
      ds ≠ [] ∧ ds.all Char.isDigit ∧
        (if neg then digitsVal ds ≤ 2 ^ 63 else digitsVal ds ≤ 2 ^ 63 - 1) := by
  by_cases h1 : ds = []
  · subst h1
    cases neg <;> simp [goAtoiCore]
  · by_cases h2 : ds.all Char.isDigit
    · cases neg <;>
        · simp only [goAtoiCore, List.isEmpty_iff, h1, if_neg, h2, not_true,
            if_false, ite_false, ite_true]
          split_ifs with hb <;> simp_all
    · cases neg <;> simp [goAtoiCore, h1, h2]

lemma goAtoi_isSome (cs : List Char) :
    (goAtoi cs).isSome ↔ isBase10IntegerChars cs := by
  rcases cs with - | ⟨c, rest⟩
  · simp [goAtoi, isBase10IntegerChars]
  · rw [show goAtoi (c :: rest)
        = (if c = '-' then goAtoiCore true rest
           else if c = '+' then goAtoiCore false rest
           else goAtoiCore false (c :: rest)) from rfl]
    unfold isBase10IntegerChars
    by_cases hm : c = '-'
    · subst hm
      rw [if_pos rfl, goAtoiCore_isSome]
      simp only [if_pos]
      constructor
      · rintro ⟨h1, h2, h3⟩
        exact Or.inr (Or.inl ⟨rest, rfl, h1, h2, h3⟩)
      · rintro (⟨-, hall, -⟩ | ⟨t, ht, h1, h2, h3⟩ | ⟨t, ht, -, -, -⟩)
        · simp only [List.all_cons, Bool.and_eq_true] at hall
          exact absurd hall.1 (by decide)
        · obtain ⟨rfl⟩ : rest = t := by simpa using ht
          exact ⟨h1, h2, h3⟩
        · simp at ht
    · by_cases hp : c = '+'
      · subst hp
        rw [if_neg hm, if_pos rfl, goAtoiCore_isSome]
        constructor
        · rintro ⟨h1, h2, h3⟩
          exact Or.inr (Or.inr ⟨rest, rfl, h1, h2, by simpa using h3⟩)
        · rintro (⟨-, hall, -⟩ | ⟨t, ht, -, -, -⟩ | ⟨t, ht, h1, h2, h3⟩)
          · simp only [List.all_cons, Bool.and_eq_true] at hall
            exact absurd hall.1 (by decide)
          · simp at ht
          · obtain ⟨rfl⟩ : rest = t := by simpa using ht
            exact ⟨h1, h2, by simpa using h3⟩
      · rw [if_neg hm, if_neg hp, goAtoiCore_isSome]
        constructor
        · rintro ⟨h1, h2, h3⟩
          exact Or.inl ⟨by simp, h2, by simpa using h3⟩
        · rintro (⟨h1, h2, h3⟩ | ⟨t, ht, -, -, -⟩ | ⟨t, ht, -, -, -⟩)
          · exact ⟨by simp, h2, by simpa using h3⟩
          · exact absurd (by simpa using ht : c = '-' ∧ rest = t).1 hm
          · exact absurd (by simpa using ht : c = '+' ∧ rest = t).1 hp

lemma String.eq_of_data_eq {a b : String} (h : a.data = b.data) : a = b := by
  cases a; cases b; simp_all

/-- C9: for every commit produced by `ParseCommit`, the short hash is the
first 8 characters of the full hash, `stats.net_change` equals
`stats.additions - stats.deletions` (and additions/deletions are the sums over
the diffs), `stats.files_changed` equals the number of diffs, and `is_merge`
holds iff the commit has more than one parent. -/
theorem parseCommit_invariants (oc : ObjectCommit) (diffs : List Diff) :
    (ParseCommit oc diffs).shortHash = (ParseCommit oc diffs).hash.take 8 ∧
    (ParseCommit oc diffs).stats.netChange
      = (ParseCommit oc diffs).stats.additions - (ParseCommit oc diffs).stats.deletions ∧
    (ParseCommit oc diffs).stats.additions = (diffs.map Diff.additions).sum ∧
    (ParseCommit oc diffs).stats.deletions = (diffs.map Diff.deletions).sum ∧
    (ParseCommit oc diffs).stats.filesChanged = ((ParseCommit oc diffs).diffs.length : Int) ∧
    ((ParseCommit oc diffs).isMerge = true ↔ 1 < (ParseCommit oc diffs).parentHashes.length) := by
  have hadd : (computeStats diffs).additions = (diffs.map Diff.additions).sum := by
    simp [computeStats, statsFold_additions]
  have hdel : (computeStats diffs).deletions = (diffs.map Diff.deletions).sum := by
    simp [computeStats, statsFold_deletions]
  have hfc : (computeStats diffs).filesChanged = (diffs.length : Int) := by
    simp [computeStats, statsFold_filesChanged]
  have hnet : (computeStats diffs).netChange
      = (computeStats diffs).additions - (computeStats diffs).deletions := by
    simp [computeStats]
  refine ⟨?_, ?_, ?_, ?_, ?_, ?_⟩
  · simp only [ParseCommit]
  · simpa only [ParseCommit] using hnet
  · simpa only [ParseCommit] using hadd
  · simpa only [ParseCommit] using hdel
  · simpa only [ParseCommit] using hfc
  · simp [ParseCommit]

/-- C10: `ParseArtifactID` succeeds exactly when its argument is the prefix
`"issue-"` or `"pr-"` followed by a non-empty base-10 integer (as accepted by
`strconv.Atoi`: optionally signed, within the 64-bit range), returning
`("issue", n)` resp. `("pr", n)`, e.g. `("issue", 42)` for `"issue-42"` and
`("pr", 123)` for `"pr-123"`; every malformed input returns an error. -/
theorem parseArtifactID_spec :
    ParseArtifactID "issue-42" = some ("issue", 42) ∧
    ParseArtifactID "pr-123" = some ("pr", 123) ∧
    ∀ id : String, (ParseArtifactID id).isSome ↔
      ((∃ s, id = "issue-" ++ s ∧ isBase10Integer s) ∨
       (∃ s, id = "pr-" ++ s ∧ isBase10Integer s)) := by
  refine ⟨by decide, by decide, fun id => ?_⟩
  constructor
  · intro h
    unfold ParseArtifactID at h
    split_ifs at h with h1 h2
    · refine Or.inl ⟨⟨id.data.drop 6⟩, ?_, ?_⟩
      · refine (String.eq_of_data_eq ?_)
        rw [String.data_append]
        show id.data = ("issue-").data ++ id.data.drop 6
        conv_lhs => rw [← List.take_append_drop 6 id.data]
        rw [h1.2]
      · exact (goAtoi_isSome _).mp (by simpa using h)
    · refine Or.inr ⟨⟨id.data.drop 3⟩, ?_, ?_⟩
      · refine (String.eq_of_data_eq ?_)
        rw [String.data_append]
        show id.data = ("pr-").data ++ id.data.drop 3
        conv_lhs => rw [← List.take_append_drop 3 id.data]
        rw [h2.2]
      · exact (goAtoi_isSome _).mp (by simpa using h)
    · simp at h
  · have hnonempty : ∀ s : String, isBase10Integer s → s.data ≠ [] := by
      rintro s (⟨h, -, -⟩ | ⟨t, h, -, -, -⟩ | ⟨t, h, -, -, -⟩)
      · exact h
      · simp [h]
      · simp [h]
    rintro (⟨s, rfl, hs⟩ | ⟨s, rfl, hs⟩)
    · have hd : ("issue-" ++ s).data = ("issue-").data ++ s.data := String.data_append _ _
      have hlen : 6 < ("issue-" ++ s).data.length := by
        rw [hd, List.length_append]
        have := List.length_pos.mpr (hnonempty s hs)
        simp only [show ("issue-").data.length = 6 from rfl]
        omega
      have htake : ("issue-" ++ s).data.take 6 = ("issue-").data := by
        rw [hd, show (6 : ℕ) = ("issue-").data.length from rfl, List.take_left]
      have hdrop : ("issue-" ++ s).data.drop 6 = s.data := by
        rw [hd, show (6 : ℕ) = ("issue-").data.length from rfl, List.drop_left]
      unfold ParseArtifactID
      rw [if_pos ⟨hlen, htake⟩, hdrop, Option.isSome_map']
      exact (goAtoi_isSome _).mpr hs
    · have hd : ("pr-" ++ s).data = ("pr-").data ++ s.data := String.data_append _ _
      have hnotissue : ¬ (6 < ("pr-" ++ s).data.length ∧
          ("pr-" ++ s).data.take 6 = ("issue-").data) := by
        rintro ⟨-, htk⟩
        rw [hd] at htk
        simp [show ("pr-").data = ['p', 'r', '-'] from rfl, List.take_cons] at htk
      have hlen : 3 < ("pr-" ++ s).data.length := by
        rw [hd, List.length_append]
        have := List.length_pos.mpr (hnonempty s hs)
        simp only [show ("pr-").data.length = 3 from rfl]
        omega
      have htake : ("pr-" ++ s).data.take 3 = ("pr-").data := by
        rw [hd, show (3 : ℕ) = ("pr-").data.length from rfl, List.take_left]
      have hdrop : ("pr-" ++ s).data.drop 3 = s.data := by
        rw [hd, show (3 : ℕ) = ("pr-").data.length from rfl, List.drop_left]
      unfold ParseArtifactID
      rw [if_neg hnotissue, if_pos ⟨hlen, htake⟩, hdrop, Option.isSome_map']
      exact (goAtoi_isSome _).mpr hs

/-! ## Review-state aggregation (adapter `determineReviewState`) -/

/-- Go struct `github.Review` (ingest model). -/
structure Review where
  id : Int
  author : String
  body : String
  state : String
  submittedAt : Time
  url : String
  deriving Repr, DecidableEq

/-- Go `normalizeReviewState` (adapter): maps the four upper-case GitHub
review states to normalized names; anything else passes through verbatim. -/
def normalizeReviewState (state : String) : String :=
  if state = "APPROVED" then "approved"
  else if state = "CHANGES_REQUESTED" then "changes_requested"
  else if state = "COMMENTED" then "commented"
  else if state = "DISMISSED" then "dismissed"
  else state

/-- Write `m[k] = v` on a Go `map[string]string` modelled as an association
list with unique keys: overwrite the entry if the key is present, append it
otherwise. -/
def mapUpdate (m : List (String × String)) (k v : String) : List (String × String) :=
  if m.any (fun p => p.1 = k) then m.map (fun p => if p.1 = k then (k, v) else p)
  else m ++ [(k, v)]

/-- The `reviewerStates` map of `determineReviewState`: walk the reviews in
order; later reviews by the same author override earlier ones. -/
def reviewerStates (reviews : List Review) : List (String × String) :=
  reviews.foldl (fun m r => mapUpdate m r.author (normalizeReviewState r.state)) []

/-- Go `determineReviewState` (adapter): empty review list yields `""`;
otherwise collapse each reviewer to their most recent review and prefer
`changes_requested` over `approved` over `commented`. -/
def determineReviewState (reviews : List Review) : String :=
  if reviews.length = 0 then ""
  else
    let m := reviewerStates reviews
    let hasChangesRequested := m.any (fun p => p.2 = "changes_requested")
    let hasApproval := m.any (fun p => p.2 = "approved")
    if hasChangesRequested then "changes_requested"
    else if hasApproval then "approved"
    else "commented"

/-- A reviewer's final (most recent, normalized) review state, read off the
review list directly: the last review in walk order whose author is `a`. -/
def finalStateOf (reviews : List Review) (a : String) : Option String :=
  ((reviews.filter (fun r => r.author = a)).getLast?).map
    (fun r => normalizeReviewState r.state)

lemma mem_mapUpdate (m : List (String × String)) (k v a s : String) :
    (a, s) ∈ mapUpdate m k v ↔ (a = k ∧ s = v) ∨ ((a, s) ∈ m ∧ a ≠ k) := by
  unfold mapUpdate
  by_cases h : m.any (fun p => p.1 = k)
  · rw [if_pos h]
    constructor
    · intro hm
      obtain ⟨p, hp, hfp⟩ := List.mem_map.mp hm
      by_cases hk : p.1 = k
      · rw [if_pos hk] at hfp
        exact Or.inl ⟨(Prod.mk.injEq .. ▸ hfp.symm).1, (Prod.mk.injEq .. ▸ hfp.symm).2⟩
      · rw [if_neg hk] at hfp
        subst hfp
        exact Or.inr ⟨hp, hk⟩
    · rintro (⟨rfl, rfl⟩ | ⟨hm, hne⟩)
      · obtain ⟨p, hp, hpk⟩ := List.any_eq_true.mp h
        refine List.mem_map.mpr ⟨p, hp, ?_⟩
        rw [if_pos (by simpa using hpk)]
      · refine List.mem_map.mpr ⟨(a, s), hm, ?_⟩
        rw [if_neg (by simpa using hne)]
  · rw [if_neg h]
    rw [List.mem_append]
    constructor
    · rintro (hm | hone)
      · refine Or.inr ⟨hm, fun hak => ?_⟩
        exact h (List.any_eq_true.mpr ⟨(a, s), hm, by simpa using hak⟩)
      · simp only [List.mem_singleton, Prod.mk.injEq] at hone
        exact Or.inl hone
    · rintro (⟨rfl, rfl⟩ | ⟨hm, -⟩)
      · exact Or.inr (by simp)
      · exact Or.inl hm

lemma mem_reviewerStates (reviews : List Review) (a s : String) :
    (a, s) ∈ reviewerStates reviews ↔ finalStateOf reviews a = some s := by
  induction reviews using List.reverseRecOn with
  | nil => simp [reviewerStates, finalStateOf]
  | append_singleton l r ih =>
    have hfold : reviewerStates (l ++ [r])
        = mapUpdate (reviewerStates l) r.author (normalizeReviewState r.state) := by
      simp [reviewerStates, List.foldl_append]
    rw [hfold, mem_mapUpdate]
    by_cases ha : r.author = a
    · have hfilter : (l ++ [r]).filter (fun x => x.author = a)
          = l.filter (fun x => x.author = a) ++ [r] := by
        rw [List.filter_append]
        simp [List.filter, ha]
      rw [finalStateOf, hfilter]
      simp only [List.getLast?_append, List.getLast?_singleton, Option.map_some']
      constructor
      · rintro (⟨rfl, rfl⟩ | ⟨-, hne⟩)
        · rfl
        · exact absurd ha.symm hne
      · intro hsome
        exact Or.inl ⟨ha.symm, by simpa using hsome.symm⟩
    · have hfilter : (l ++ [r]).filter (fun x => x.author = a)
          = l.filter (fun x => x.author = a) := by
        rw [List.filter_append]
        simp [List.filter, ha]
      rw [finalStateOf, hfilter, ← finalStateOf]
      constructor
      · rintro (⟨rfl, -⟩ | ⟨hm, -⟩)
        · exact absurd rfl ha
        · exact ih.mp hm
      · intro hsome
        exact Or.inr ⟨ih.mpr hsome, fun hak => ha hak.symm⟩

lemma reviewerStates_any_iff (reviews : List Review) (x : String) :
    ((reviewerStates reviews).any (fun p => p.2 = x) = true)
      ↔ ∃ a, finalStateOf reviews a = some x := by
  rw [List.any_eq_true]
  constructor
  · rintro ⟨p, hp, hpx⟩
    refine ⟨p.1, (mem_reviewerStates reviews p.1 x).mp ?_⟩
    have : p = (p.1, x) := by
      have := of_decide_eq_true hpx
      exact Prod.ext rfl this
    rwa [← this]
  · rintro ⟨a, ha⟩
    exact ⟨(a, x), (mem_reviewerStates reviews a x).mpr ha, by simp⟩

/-- C5: `determineReviewState` of an empty review list is the empty string;
otherwise, after collapsing each reviewer to their most recent review in walk
order, it emits `changes_requested` if any reviewer's final state is
`changes_requested`, else `approved` if any final state is `approved`, else
`commented`; the result is a function of the review list alone. -/
theorem determineReviewState_spec :
    determineReviewState [] = "" ∧
    ∀ reviews : List Review, reviews ≠ [] →
      (determineReviewState reviews = "changes_requested"
          ↔ ∃ a, finalStateOf reviews a = some "changes_requested") ∧
      (determineReviewState reviews = "approved"
          ↔ (¬ ∃ a, finalStateOf reviews a = some "changes_requested")
            ∧ ∃ a, finalStateOf reviews a = some "approved") ∧
      (determineReviewState reviews = "commented"
          ↔ (¬ ∃ a, finalStateOf reviews a = some "changes_requested")
            ∧ ¬ ∃ a, finalStateOf reviews a = some "approved") := by
  refine ⟨rfl, fun reviews hne => ?_⟩
  have hlen : ¬ reviews.length = 0 := by simpa using hne
  unfold determineReviewState
  rw [if_neg hlen]
  by_cases hcr : (reviewerStates reviews).any (fun p => p.2 = "changes_requested")
  · rw [if_pos hcr]
    have hcr' := (reviewerStates_any_iff reviews "changes_requested").mp hcr
    refine ⟨by simpa using hcr', ?_, ?_⟩
    · constructor
      · intro h
        exact absurd h (by decide)
      · rintro ⟨hno, -⟩
        exact absurd hcr' hno
    · constructor
      · intro h
        exact absurd h (by decide)
      · rintro ⟨hno, -⟩
        exact absurd hcr' hno
  · rw [if_neg hcr]
    have hcr' : ¬ ∃ a, finalStateOf reviews a = some "changes_requested" := fun h =>
      hcr ((reviewerStates_any_iff reviews "changes_requested").mpr h)
    by_cases hap : (reviewerStates reviews).any (fun p => p.2 = "approved")
    · rw [if_pos hap]
      have hap' := (reviewerStates_any_iff reviews "approved").mp hap
      refine ⟨?_, ?_, ?_⟩
      · constructor
        · intro h
          exact absurd h (by decide)
        · intro h
          exact absurd h hcr'
      · exact ⟨fun _ => ⟨hcr', hap'⟩, fun _ => rfl⟩
      · constructor
        · intro h
          exact absurd h (by decide)
        · rintro ⟨-, hno⟩
          exact absurd hap' hno
    · rw [if_neg hap]
      have hap' : ¬ ∃ a, finalStateOf reviews a = some "approved" := fun h =>
        hap ((reviewerStates_any_iff reviews "approved").mpr h)
      refine ⟨?_, ?_, ?_⟩
      · constructor
        · intro h
          exact absurd h (by decide)
        · intro h
          exact absurd h hcr'
      · constructor
        · intro h
          exact absurd h (by decide)
        · rintro ⟨-, hsome⟩
          exact absurd hsome hap'
      · exact ⟨fun _ => ⟨hcr', hap'⟩, fun _ => rfl⟩

/-- Concrete spec scenario S4 exercised through `determineReviewState_spec`:
Alice APPROVED then Bob CHANGES_REQUESTED aggregates to `changes_requested`. -/
theorem determineReviewState_spec_witness :
    determineReviewState
      [⟨1, "alice", "", "APPROVED", 1, ""⟩, ⟨2, "bob", "", "CHANGES_REQUESTED", 2, ""⟩]
      = "changes_requested" :=
  ((determineReviewState_spec.2
      [⟨1, "alice", "", "APPROVED", 1, ""⟩, ⟨2, "bob", "", "CHANGES_REQUESTED", 2, ""⟩]
      (by decide)).1).mpr ⟨"bob", by decide⟩

/-! ## Clustering engine (internal/cluster/grouping.go) -/

/-- Go struct `cluster.GroupingConfig`. `MaxTimeGap` is a `time.Duration`
(an `Int` of nanoseconds); the weights and threshold are `float64`, modelled
over `ℚ`. -/
structure GroupingConfig where
  maxTimeGap : Int
  minCommits : Int
  timeWeight : ℚ
  authorWeight : ℚ
  fileWeight : ℚ
  messageWeight : ℚ
  artifactWeight : ℚ
  minSimilarityScore : ℚ
  deriving Repr, DecidableEq

/-- Go `DefaultGroupingConfig` (24h gap in nanoseconds). -/
def DefaultGroupingConfig : GroupingConfig :=
  { maxTimeGap := 24 * 3600 * 1000000000
    minCommits := 1
    timeWeight := 3 / 10
    authorWeight := 1 / 4
    fileWeight := 1 / 4
    messageWeight := 1 / 10
    artifactWeight := 1 / 10
    minSimilarityScore := 1 / 2 }

/-- Go `calculateTimeScore` (grouping.go:148): absolute committed-at gap;
0 beyond `maxGap`, else linear decay `1 - diff / maxGap`. -/
def calculateTimeScore (lastCommit commit : Commit) (maxGap : Int) : ℚ :=
  let timeDiff := commit.committedAt - lastCommit.committedAt
  let timeDiff := if timeDiff < 0 then -timeDiff else timeDiff
  if maxGap < timeDiff then 0
  else 1 - (timeDiff : ℚ) / (maxGap : ℚ)

/-- C2: for any positive `max_time_gap`, the time subscore is `0` when the
absolute committed-at difference exceeds the gap and `1 - diff / max_time_gap`
otherwise; in particular a commit exactly `max_time_gap` after the previous
one scores `0`. -/
theorem calculateTimeScore_spec (lastCommit commit : Commit) (maxGap : Int)
    (h : 0 < maxGap) :
    (calculateTimeScore lastCommit commit maxGap
      = if maxGap < |commit.committedAt - lastCommit.committedAt| then 0
        else 1 - ((|commit.committedAt - lastCommit.committedAt| : Int) : ℚ) / (maxGap : ℚ)) ∧
    (|commit.committedAt - lastCommit.committedAt| = maxGap →
      calculateTimeScore lastCommit commit maxGap = 0) := by
  have habs : (if commit.committedAt - lastCommit.committedAt < 0 then
        -(commit.committedAt - lastCommit.committedAt)
      else commit.committedAt - lastCommit.committedAt)
      = |commit.committedAt - lastCommit.committedAt| := by
    rcases lt_or_le (commit.committedAt - lastCommit.committedAt) 0 with hlt | hle
    · rw [if_pos hlt, abs_of_neg hlt]
    · rw [if_neg (not_lt.mpr hle), abs_of_nonneg hle]
  constructor
  · simp only [calculateTimeScore]
    rw [habs]
  · intro heq
    simp only [calculateTimeScore]
    rw [habs, heq, if_neg (lt_irrefl maxGap)]
    have hq : (maxGap : ℚ) ≠ 0 := Int.cast_ne_zero.mpr (by omega)
    field_simp

/-- Concrete check of C2 at the boundary: with a 24-unit gap and commits
exactly 24 apart the time subscore is `0`. -/
theorem calculateTimeScore_spec_witness :
    calculateTimeScore
      { hash := "", shortHash := "", author := ⟨"", "", 0⟩, committer := ⟨"", "", 0⟩,
        message := "", messageSubject := "", messageBody := "", committedAt := 0,
        parentHashes := [], treeHash := "", diffs := [], stats := ⟨0, 0, 0, 0⟩,
        isMerge := false }
      { hash := "", shortHash := "", author := ⟨"", "", 0⟩, committer := ⟨"", "", 0⟩,
        message := "", messageSubject := "", messageBody := "", committedAt := 24,
        parentHashes := [], treeHash := "", diffs := [], stats := ⟨0, 0, 0, 0⟩,
        isMerge := false }
      24 = 0 :=
  (calculateTimeScore_spec _ _ 24 (by decide)).2 (by decide)

/-! ### Reference extraction (grouping.go `extractArtifactReferences`)

The four Go regular expressions `#(\d+)`, `(?i)PR-?(\d+)`, `(?i)issue-?(\d+)`
and `(?i)MR-?(\d+)` are implemented as leftmost, non-overlapping scanners
over the character list; each match records the full matched text (`match[0]`)
with its original casing, exactly as `FindAllStringSubmatch` does. -/

/-- Case-insensitive literal match: consume `kw` (lower-case) from the front
of `l`, returning the consumed original characters and the remainder. -/
def matchCI : List Char → List Char → Option (List Char × List Char)
  | [], l => some ([], l)
  | _ :: _, [] => none
  | k :: ks, c :: cs =>
    if c.toLower = k then
      match matchCI ks cs with
      | some pr => some (c :: pr.1, pr.2)
      | none => none
    else none

/-- After a matched keyword: `-?(\d+)` with the regex's greedy/backtracking
semantics — an optional hyphen only when one or more digits follow it;
otherwise one or more digits directly; else no match at this position. -/
def numTail (pre rest : List Char) : Option (List Char × List Char) :=
  match rest with
  | '-' :: rest2 =>
    let digs := rest2.takeWhile Char.isDigit
    if digs.isEmpty then none
    else some (pre ++ '-' :: digs, rest2.drop digs.length)
  | _ =>
    let digs := rest.takeWhile Char.isDigit
    if digs.isEmpty then none
    else some (pre ++ digs, rest.drop digs.length)

lemma length_takeWhile_le {α : Type} (p : α → Bool) (l : List α) :
    (l.takeWhile p).length ≤ l.length :=
  (List.takeWhile_sublist p).length_le

lemma matchCI_length {kw l : List Char} {pr : List Char × List Char}
    (h : matchCI kw l = some pr) : pr.2.length ≤ l.length := by
  induction kw generalizing l pr with
  | nil =>
    simp only [matchCI, Option.some.injEq] at h
    simp [← h]
  | cons k ks ih =>
    match l with
    | [] => simp [matchCI] at h
    | c :: cs =>
      simp only [matchCI] at h
      split_ifs at h
      rcases hm : matchCI ks cs with - | pr2
      · rw [hm] at h
        simp at h
      · rw [hm] at h
        simp only [Option.some.injEq] at h
        have := ih hm
        simp [← h]
        omega

lemma numTail_length {pre rest : List Char} {mr : List Char × List Char}
    (h : numTail pre rest = some mr) : mr.2.length < rest.length := by
  match rest with
  | [] =>
    simp [numTail] at h
  | c :: rest2 =>
    by_cases hc : c = '-'
    · subst hc
      simp only [numTail] at h
      split_ifs at h with hd
      simp only [Option.some.injEq] at h
      have hlen : (rest2.takeWhile Char.isDigit).length ≠ 0 := by
        simpa [List.isEmpty_iff, List.length_eq_zero] using hd
      have hle : (rest2.takeWhile Char.isDigit).length ≤ rest2.length :=
        length_takeWhile_le _ _
      simp [← h]
      omega
    · rw [show numTail pre (c :: rest2)
          = (let digs := (c :: rest2).takeWhile Char.isDigit
             if digs.isEmpty then none
             else some (pre ++ digs, (c :: rest2).drop digs.length)) by
        unfold numTail
        split
        next heq => exact absurd (by simpa using congrArg (List.head? ·) heq) hc
        next => rfl] at h
      simp only at h
      split_ifs at h with hd
      simp only [Option.some.injEq] at h
      have hlen : ((c :: rest2).takeWhile Char.isDigit).length ≠ 0 := by
        simpa [List.isEmpty_iff, List.length_eq_zero] using hd
      have hle : ((c :: rest2).takeWhile Char.isDigit).length ≤ (c :: rest2).length :=
        length_takeWhile_le _ _
      simp only [← h, List.length_drop, List.length_cons]
      simp only [List.length_cons] at hle
      omega

/-- Scanner for `#(\d+)`: a `#` immediately followed by one or more digits;
non-overlapping, continuing after each match. -/
def scanHash : List Char → List String
  | [] => []
  | c :: cs =>
    if c = '#' then
      let digs := cs.takeWhile Char.isDigit
      if digs.isEmpty then scanHash cs
      else String.mk ('#' :: digs) :: scanHash (cs.drop digs.length)
    else scanHash cs
termination_by l => l.length
decreasing_by all_goals (simp only [List.length_cons, List.length_drop]; omega)

/-- Scanner for `(?i){kw}-?(\d+)` (`kw` given lower-case): at each position
try the case-insensitive keyword followed by `-?\d+`; on failure advance one
character, on success continue after the match. -/
def scanKeyword (kw : List Char) : List Char → List String
  | [] => []
  | c :: cs =>
    match h1 : matchCI kw (c :: cs) with
    | some pr =>
      match h2 : numTail pr.1 pr.2 with
      | some mr => String.mk mr.1 :: scanKeyword kw mr.2
      | none => scanKeyword kw cs
    | none => scanKeyword kw cs
termination_by l => l.length
decreasing_by
  · have hle := matchCI_length h1
    have hlt := numTail_length h2
    simp only [List.length_cons] at hle ⊢
    omega
  · simp
  · simp

/-- Go `extractArtifactReferences` (grouping.go:307): the set of matched
reference texts across the four patterns (a Go `map[string]bool`, modelled as
a deduplicated list). -/
def extractArtifactReferences (text : String) : List String :=
  (scanHash text.data
    ++ scanKeyword ("pr").data text.data
    ++ scanKeyword ("issue").data text.data
    ++ scanKeyword ("mr").data text.data).dedup

/-! ### Similarity subscores -/

/-- Go `calculateAuthorScore` (grouping.go:163): 1 iff the new commit's
author email appears among the episode commits' author emails. -/
def calculateAuthorScore (episode : Episode) (commit : Commit) : ℚ :=
  if episode.commits.any (fun ec => ec.author.email = commit.author.email) then 1 else 0

/-- File paths a commit contributes to the file-overlap sets: each diff's
path, plus its old path when non-empty (grouping.go:175-192). -/
def commitFilePaths (c : Commit) : List String :=
  c.diffs.flatMap (fun d => d.filePath :: (if d.oldPath ≠ "" then [d.oldPath] else []))

/-- Go `calculateFileScore` (grouping.go:173): Jaccard similarity between the
episode's file-path set and the commit's file-path set; 0 when either side is
empty. -/
def calculateFileScore (episode : Episode) (commit : Commit) : ℚ :=
  let episodeFiles := (episode.commits.flatMap commitFilePaths).dedup
  let commitFiles := (commitFilePaths commit).dedup
  if episodeFiles.isEmpty ∨ commitFiles.isEmpty then 0
  else
    let intersection := (commitFiles.filter (fun f => f ∈ episodeFiles)).length
    let union := episodeFiles.length + (commitFiles.filter (fun f => f ∉ episodeFiles)).length
    if union = 0 then 0
    else (intersection : ℚ) / (union : ℚ)

/-- Stop words of `extractKeywords` (grouping.go:253). -/
def stopWords : List String :=
  ["a", "an", "and", "are", "as", "at", "be", "by", "for", "from", "in", "is",
   "it", "of", "on", "or", "that", "the", "to", "was", "will", "with"]

/-- A `\w` character: ASCII letter, digit or underscore. -/
def isWordChar (c : Char) : Bool :=
  (('a' ≤ c ∧ c ≤ 'z') ∨ ('A' ≤ c ∧ c ≤ 'Z') ∨ ('0' ≤ c ∧ c ≤ '9') ∨ c = '_')

/-- Maximal `\w+` runs of a character list, in order. -/
def splitWords : List Char → List String
  | [] => []
  | c :: cs =>
    if isWordChar c then
      let run := cs.takeWhile isWordChar
      String.mk (c :: run) :: splitWords (cs.drop run.length)
    else splitWords cs
termination_by l => l.length
decreasing_by all_goals (simp only [List.length_cons, List.length_drop]; omega)

/-- Go `extractKeywords` (grouping.go:251): lower-case the message, take the
`\w+` words longer than 2 characters that are not stop words, as a set. -/
def extractKeywords (message : String) : List String :=
  ((splitWords (message.data.map Char.toLower)).filter
    (fun w => decide (2 < w.length) && ! stopWords.contains w)).dedup

/-- Go `calculateMessageScore` (grouping.go:218): maximum, over the episode's
commits, of the fraction of the new commit's keyword set contained in that
commit's keyword set (keywords from the message subject). -/
def calculateMessageScore (episode : Episode) (commit : Commit) : ℚ :=
  let commitKeywords := extractKeywords commit.messageSubject
  if commitKeywords.isEmpty then 0
  else
    episode.commits.foldl (fun maxOverlap ec =>
      let episodeKeywords := extractKeywords ec.messageSubject
      if episodeKeywords.isEmpty then maxOverlap
      else
        let overlap := (commitKeywords.filter (fun k => k ∈ episodeKeywords)).length
        let overlapScore := (overlap : ℚ) / (commitKeywords.length : ℚ)
        if maxOverlap < overlapScore then overlapScore else maxOverlap) 0

/-- Go `calculateArtifactScore` (grouping.go:274): 0 without episode
artifacts or without extracted references; otherwise the fraction of the
commit's references that hit the episode's `#{number}` or identity keys. -/
def calculateArtifactScore (episode : Episode) (commit : Commit) : ℚ :=
  if episode.artifacts.isEmpty then 0
  else
    let commitRefs := extractArtifactReferences commit.message
    if commitRefs.isEmpty then 0
    else
      let episodeRefs :=
        (episode.artifacts.flatMap (fun a => ["#" ++ toString a.number, a.id])).dedup
      let overlap := (commitRefs.filter (fun r => r ∈ episodeRefs)).length
      (overlap : ℚ) / (commitRefs.length : ℚ)

/-- Go `calculateEpisodeSimilarity` (grouping.go:115): weighted sum of the
five subscores against the current episode (0 for an empty episode). -/
def calculateEpisodeSimilarity (episode : Episode) (commit : Commit)
    (config : GroupingConfig) : ℚ :=
  match episode.commits.getLast? with
  | none => 0
  | some lastCommit =>
    calculateTimeScore lastCommit commit config.maxTimeGap * config.timeWeight
      + calculateAuthorScore episode commit * config.authorWeight
      + calculateFileScore episode commit * config.fileWeight
      + calculateMessageScore episode commit * config.messageWeight
      + calculateArtifactScore episode commit * config.artifactWeight

/-! ### Artifact linking and the grouping loop -/

/-- The five keys `buildArtifactReferenceMap` (grouping.go:331) registers for
an artifact: `#{n}`, the identity, `PR-{n}`, `issue-{n}`, `MR-{n}`. -/
def artifactRefKeys (a : Artifact) : List String :=
  ["#" ++ toString a.number, a.id, "PR-" ++ toString a.number,
   "issue-" ++ toString a.number, "MR-" ++ toString a.number]

/-- Go `buildArtifactReferenceMap`: a `map[string]*Artifact` filled in
artifact order, so a lookup returns the last artifact registering the key. -/
def buildArtifactReferenceMap (artifacts : List Artifact) (ref : String) :
    Option Artifact :=
  (artifacts.filter (fun a => ref ∈ artifactRefKeys a)).getLast?

/-- First loop body of `addReferencedArtifacts` (grouping.go:358-365): if the
reference index maps the reference and the artifact's identity is not yet in
the episode, append it. -/
def addRefStep (refMap : String → Option Artifact) (ep : Episode) (ref : String) :
    Episode :=
  match refMap ref with
  | some artifact =>
    if ep.artifacts.any (fun a => a.id = artifact.id) then ep
    else { ep with artifacts := ep.artifacts ++ [artifact] }
  | none => ep

/-- Second loop body of `addReferencedArtifacts` (grouping.go:368-381): if the
artifact's identity is not yet in the episode and one of its discussions
carries the commit's hash, append it. -/
def addHashStep (commit : Commit) (ep : Episode) (artifact : Artifact) : Episode :=
  if ep.artifacts.any (fun a => a.id = artifact.id) then ep
  else if artifact.discussions.any (fun d => d.commitHash = commit.hash) then
    { ep with artifacts := ep.artifacts ++ [artifact] }
  else ep

/-- Go `addReferencedArtifacts` (grouping.go:349): append the artifacts the
reference index maps the commit's extracted references to, then the artifacts
one of whose discussions carries the commit hash, deduplicating by identity
against the episode's current artifact list throughout. -/
def addReferencedArtifacts (episode : Episode) (commit : Commit)
    (refMap : String → Option Artifact) (allArtifacts : List Artifact) : Episode :=
  let refs := extractArtifactReferences commit.message
  let ep1 := refs.foldl (addRefStep refMap) episode
  allArtifacts.foldl (addHashStep commit) ep1

/-- The mutable loop state of `GroupIntoEpisodes`: emitted episodes plus the
episode under construction (`nil` before the first commit). -/
structure GroupState where
  episodes : List Episode
  current : Option Episode

/-- A fresh episode holding a single commit (grouping.go:67, 88). -/
def emptyEpisodeWith (c : Commit) : Episode := { id := "", commits := [c], artifacts := [] }

/-- One iteration of the `GroupIntoEpisodes` loop (grouping.go:64-93): start,
append on sufficient similarity, or finalize (emitting only with at least
`MinCommits` commits, identity `E{len+1}`) and start anew; every added commit
also links its referenced artifacts. -/
def groupStep (config : GroupingConfig) (refMap : String → Option Artifact)
    (allArtifacts : List Artifact) (st : GroupState) (commit : Commit) : GroupState :=
  match st.current with
  | none =>
    let started := addReferencedArtifacts (emptyEpisodeWith commit) commit refMap allArtifacts
    { st with current := some started }
  | some cur =>
    let similarity := calculateEpisodeSimilarity cur commit config
    if config.minSimilarityScore ≤ similarity then
      let appended := addReferencedArtifacts { cur with commits := cur.commits ++ [commit] }
        commit refMap allArtifacts
      { st with current := some appended }
    else
      let episodes :=
        if config.minCommits ≤ (cur.commits.length : Int) then
          st.episodes ++ [{ cur with id := "E" ++ toString (st.episodes.length + 1) }]
        else st.episodes
      let started := addReferencedArtifacts (emptyEpisodeWith commit) commit refMap allArtifacts
      { episodes := episodes, current := some started }

/-- The trailing-episode flush of `GroupIntoEpisodes` (grouping.go:96-101). -/
def flushState (config : GroupingConfig) (st : GroupState) : List Episode :=
  match st.current with
  | none => st.episodes
  | some cur =>
    if config.minCommits ≤ (cur.commits.length : Int) then
      st.episodes ++ [{ cur with id := "E" ++ toString (st.episodes.length + 1) }]
    else st.episodes

/-- Go `sortCommitsByTime` (grouping.go:108): chronological, oldest first. -/
def sortCommitsByTime (commits : List Commit) : List Commit :=
  commits.mergeSort (fun a b => a.committedAt ≤ b.committedAt)

/-- Go `GroupIntoEpisodes` (grouping.go:48): empty input yields no episodes;
otherwise sort the copied commits chronologically, build the reference index,
run the grouping loop and flush the trailing episode. -/
def GroupIntoEpisodes (ra : RepositoryActivity) (config : GroupingConfig) :
    List Episode :=
  if ra.commits.isEmpty then []
  else
    let commits := sortCommitsByTime ra.commits
    let refMap := buildArtifactReferenceMap ra.artifacts
    flushState config (commits.foldl (groupStep config refMap ra.artifacts) ⟨[], none⟩)

/-! ## C4: the artifact-reference subscore -/

/-- The artifact-reference subscore as the claim words it: the fraction of
extracted references matching an episode artifact by `#n`, by identity, or by
`PR-n` / `issue-n` / `MR-n`. Stated from the spec for comparison with
`calculateArtifactScore`. -/
def claimedArtifactScore (episode : Episode) (commit : Commit) : ℚ :=
  if episode.artifacts.isEmpty then 0
  else
    let commitRefs := extractArtifactReferences commit.message
    if commitRefs.isEmpty then 0
    else
      let matching := commitRefs.filter (fun r =>
        episode.artifacts.any (fun a =>
          r = "#" ++ toString a.number ∨ r = a.id ∨ r = "PR-" ++ toString a.number
            ∨ r = "issue-" ++ toString a.number ∨ r = "MR-" ++ toString a.number))
      (matching.length : ℚ) / (commitRefs.length : ℚ)

/-- A minimal commit carrying only a message and a committed-at time, for
concrete scenarios. -/
def mkTestCommit (msg : String) (t : Time) : Commit :=
  { hash := "", shortHash := "", author := ⟨"", "", 0⟩, committer := ⟨"", "", 0⟩,
    message := msg, messageSubject := msg, messageBody := "", committedAt := t,
    parentHashes := [], treeHash := "", diffs := [], stats := ⟨0, 0, 0, 0⟩,
    isMerge := false }

/-- Change-proposal artifact `pr-456` (number 456). -/
def artC4 : Artifact := { id := "pr-456", number := 456, atype := "pull_request" }

/-- Episode already holding `artC4`. -/
def epC4 : Episode := { id := "E1", commits := [], artifacts := [artC4] }

/-- C4 fails on the code: a commit whose message is exactly `PR-456` against
an episode holding the artifact with identity `pr-456` and number 456 scores
`0` in `calculateArtifactScore` (the code matches episode artifacts only by
`#n` and identity), while the claim's `PR-n` matching predicts `1`. -/
theorem calculateArtifactScore_counterexample :
    calculateArtifactScore epC4 (mkTestCommit "PR-456" 0) = 0 ∧
    claimedArtifactScore epC4 (mkTestCommit "PR-456" 0) = 1 ∧
    calculateArtifactScore epC4 (mkTestCommit "PR-456" 0)
      ≠ claimedArtifactScore epC4 (mkTestCommit "PR-456" 0) := by
  have hrefs : extractArtifactReferences "PR-456" = ["PR-456"] := by
    simp [extractArtifactReferences, scanHash, scanKeyword, matchCI, numTail]
  have hm1 : ((["PR-456"] : List String).filter (fun r =>
      r ∈ (epC4.artifacts.flatMap (fun a => ["#" ++ toString a.number, a.id])).dedup)).length
        = 0 := by
    decide
  have hm2 : ((["PR-456"] : List String).filter (fun r =>
      epC4.artifacts.any (fun a =>
        r = "#" ++ toString a.number ∨ r = a.id ∨ r = "PR-" ++ toString a.number
          ∨ r = "issue-" ++ toString a.number ∨ r = "MR-" ++ toString a.number))).length
        = 1 := by
    decide
  have h1 : calculateArtifactScore epC4 (mkTestCommit "PR-456" 0) = 0 := by
    simp only [calculateArtifactScore, mkTestCommit, hrefs]
    rw [if_neg (by decide : ¬ (epC4.artifacts.isEmpty = true)),
      if_neg (by decide : ¬ ((["PR-456"] : List String).isEmpty = true)), hm1]
    norm_num
  have h2 : claimedArtifactScore epC4 (mkTestCommit "PR-456" 0) = 1 := by
    simp only [claimedArtifactScore, mkTestCommit, hrefs]
    rw [if_neg (by decide : ¬ (epC4.artifacts.isEmpty = true)),
      if_neg (by decide : ¬ ((["PR-456"] : List String).isEmpty = true)), hm2]
    norm_num
  exact ⟨h1, h2, by rw [h1, h2]; norm_num⟩

/-- C4 (amended): the subscore is 0 when the episode has no artifacts or the
commit's message yields no references; otherwise it is the fraction of the
extracted references that match an episode artifact by `#n` or by artifact
identity only (references in `PR-n` / `issue-n` / `MR-n` form are not matched
unless they coincide with an identity). -/
theorem calculateArtifactScore_amended (episode : Episode) (commit : Commit) :
    calculateArtifactScore episode commit =
      if episode.artifacts.isEmpty then 0
      else if (extractArtifactReferences commit.message).isEmpty then 0
      else
        (((extractArtifactReferences commit.message).filter (fun r =>
            episode.artifacts.any (fun a =>
              r = "#" ++ toString a.number ∨ r = a.id))).length : ℚ)
          / ((extractArtifactReferences commit.message).length : ℚ) := by
  simp only [calculateArtifactScore]
  by_cases h1 : episode.artifacts.isEmpty
  · rw [if_pos h1, if_pos h1]
  · rw [if_neg h1, if_neg h1]
    by_cases h2 : (extractArtifactReferences commit.message).isEmpty
    · rw [if_pos h2, if_pos h2]
    · rw [if_neg h2, if_neg h2]
      have hf : (extractArtifactReferences commit.message).filter
            (fun r => r ∈ (episode.artifacts.flatMap
              (fun a => ["#" ++ toString a.number, a.id])).dedup)
          = (extractArtifactReferences commit.message).filter (fun r =>
              episode.artifacts.any (fun a =>
                r = "#" ++ toString a.number ∨ r = a.id)) := by
        apply List.filter_congr
        intro r hr
        rw [Bool.eq_iff_iff]
        simp only [List.mem_dedup, List.mem_flatMap, List.mem_cons,
          List.not_mem_nil, or_false, List.any_eq_true, decide_eq_true_eq]
      rw [hf]

/-! ## C3: artifact linking and identity uniqueness -/

lemma addRefStep_artifacts_mono (refMap : String → Option Artifact)
    (ep : Episode) (ref : String) {a : Artifact} (h : a ∈ ep.artifacts) :
    a ∈ (addRefStep refMap ep ref).artifacts := by
  unfold addRefStep
  rcases refMap ref with - | art
  · exact h
  · dsimp only
    split_ifs
    · exact h
    · exact List.mem_append_left _ h

lemma addHashStep_artifacts_mono (commit : Commit) (ep : Episode)
    (artifact : Artifact) {a : Artifact} (h : a ∈ ep.artifacts) :
    a ∈ (addHashStep commit ep artifact).artifacts := by
  unfold addHashStep
  split_ifs
  · exact h
  · exact List.mem_append_left _ h
  · exact h

lemma foldl_addRefStep_mono (refMap : String → Option Artifact)
    (refs : List String) (ep : Episode) {a : Artifact} (h : a ∈ ep.artifacts) :
    a ∈ (refs.foldl (addRefStep refMap) ep).artifacts := by
  induction refs generalizing ep with
  | nil => exact h
  | cons r rest ih => exact ih _ (addRefStep_artifacts_mono refMap ep r h)

lemma foldl_addHashStep_mono (commit : Commit) (arts : List Artifact)
    (ep : Episode) {a : Artifact} (h : a ∈ ep.artifacts) :
    a ∈ (arts.foldl (addHashStep commit) ep).artifacts := by
  induction arts generalizing ep with
  | nil => exact h
  | cons x rest ih => exact ih _ (addHashStep_artifacts_mono commit ep x h)

lemma foldl_addRefStep_adds (refMap : String → Option Artifact)
    (refs : List String) (ep : Episode) {ref : String} {art : Artifact}
    (hmem : ref ∈ refs) (hmap : refMap ref = some art) :
    ∃ a ∈ (refs.foldl (addRefStep refMap) ep).artifacts, a.id = art.id := by
  induction refs generalizing ep with
  | nil => simp at hmem
  | cons r rest ih =>
    rcases List.mem_cons.mp hmem with rfl | hmem2
    · have hstep : ∃ a ∈ (addRefStep refMap ep ref).artifacts, a.id = art.id := by
        unfold addRefStep
        rw [hmap]
        dsimp only
        split_ifs with hany
        · obtain ⟨a, ha, haid⟩ := List.any_eq_true.mp hany
          exact ⟨a, ha, of_decide_eq_true haid⟩
        · exact ⟨art, List.mem_append_right _ (List.mem_singleton.mpr rfl), rfl⟩
      obtain ⟨a, ha, haid⟩ := hstep
      exact ⟨a, foldl_addRefStep_mono refMap rest _ ha, haid⟩
    · exact ih _ hmem2

lemma foldl_addHashStep_adds (commit : Commit) (arts : List Artifact)
    (ep : Episode) {art : Artifact} (hmem : art ∈ arts)
    (hdisc : ∃ d ∈ art.discussions, d.commitHash = commit.hash) :
    ∃ a ∈ (arts.foldl (addHashStep commit) ep).artifacts, a.id = art.id := by
  induction arts generalizing ep with
  | nil => simp at hmem
  | cons x rest ih =>
    rcases List.mem_cons.mp hmem with rfl | hmem2
    · have hstep : ∃ a ∈ (addHashStep commit ep art).artifacts, a.id = art.id := by
        unfold addHashStep
        split_ifs with hany hhash
        · obtain ⟨a, ha, haid⟩ := List.any_eq_true.mp hany
          exact ⟨a, ha, of_decide_eq_true haid⟩
        · exact ⟨art, List.mem_append_right _ (List.mem_singleton.mpr rfl), rfl⟩
        · obtain ⟨d, hd, hdh⟩ := hdisc
          exact absurd (List.any_eq_true.mpr ⟨d, hd, decide_eq_true hdh⟩) hhash
      obtain ⟨a, ha, haid⟩ := hstep
      exact ⟨a, foldl_addHashStep_mono commit rest _ ha, haid⟩
    · exact ih _ hmem2

lemma addRefStep_nodup (refMap : String → Option Artifact) (ep : Episode)
    (ref : String) (h : (ep.artifacts.map Artifact.id).Nodup) :
    ((addRefStep refMap ep ref).artifacts.map Artifact.id).Nodup := by
  unfold addRefStep
  rcases refMap ref with - | art
  · exact h
  · dsimp only
    split_ifs with hany
    · exact h
    · rw [List.map_append, List.map_singleton]
      refine List.Nodup.append h (List.nodup_singleton _) ?_
      intro x hx hx2
      rw [List.mem_singleton] at hx2
      subst hx2
      obtain ⟨a, ha, haid⟩ := List.mem_map.mp hx
      exact hany (List.any_eq_true.mpr ⟨a, ha, decide_eq_true haid⟩)

lemma addHashStep_nodup (commit : Commit) (ep : Episode) (artifact : Artifact)
    (h : (ep.artifacts.map Artifact.id).Nodup) :
    ((addHashStep commit ep artifact).artifacts.map Artifact.id).Nodup := by
  unfold addHashStep
  split_ifs with hany hhash
  · exact h
  · rw [List.map_append, List.map_singleton]
    refine List.Nodup.append h (List.nodup_singleton _) ?_
    intro x hx hx2
    rw [List.mem_singleton] at hx2
    subst hx2
    obtain ⟨a, ha, haid⟩ := List.mem_map.mp hx
    exact hany (List.any_eq_true.mpr ⟨a, ha, decide_eq_true haid⟩)
  · exact h

lemma addReferencedArtifacts_nodup (episode : Episode) (commit : Commit)
    (refMap : String → Option Artifact) (allArtifacts : List Artifact)
    (h : (episode.artifacts.map Artifact.id).Nodup) :
    ((addReferencedArtifacts episode commit refMap allArtifacts).artifacts.map
      Artifact.id).Nodup := by
  unfold addReferencedArtifacts
  have h1 : ∀ (refs : List String) (ep : Episode),
      (ep.artifacts.map Artifact.id).Nodup →
      ((refs.foldl (addRefStep refMap) ep).artifacts.map Artifact.id).Nodup := by
    intro refs
    induction refs with
    | nil => exact fun ep h => h
    | cons r rest ih => exact fun ep h => ih _ (addRefStep_nodup refMap ep r h)
  have h2 : ∀ (arts : List Artifact) (ep : Episode),
      (ep.artifacts.map Artifact.id).Nodup →
      ((arts.foldl (addHashStep commit) ep).artifacts.map Artifact.id).Nodup := by
    intro arts
    induction arts with
    | nil => exact fun ep h => h
    | cons x rest ih => exact fun ep h => ih _ (addHashStep_nodup commit ep x h)
  exact h2 _ _ (h1 _ _ h)

lemma addReferencedArtifacts_commits (episode : Episode) (commit : Commit)
    (refMap : String → Option Artifact) (allArtifacts : List Artifact) :
    (addReferencedArtifacts episode commit refMap allArtifacts).commits
      = episode.commits := by
  unfold addReferencedArtifacts
  have h1 : ∀ (refs : List String) (ep : Episode),
      (refs.foldl (addRefStep refMap) ep).commits = ep.commits := by
    intro refs
    induction refs with
    | nil => exact fun ep => rfl
    | cons r rest ih =>
      intro ep
      rw [List.foldl_cons, ih]
      unfold addRefStep
      rcases refMap r with - | art
      · rfl
      · dsimp only
        split_ifs <;> rfl
  have h2 : ∀ (arts : List Artifact) (ep : Episode),
      (arts.foldl (addHashStep commit) ep).commits = ep.commits := by
    intro arts
    induction arts with
    | nil => exact fun ep => rfl
    | cons x rest ih =>
      intro ep
      rw [List.foldl_cons, ih]
      unfold addHashStep
      split_ifs <;> rfl
  rw [h2, h1]

/-- Artifact-identity uniqueness carried through the grouping fold. -/
def stateArtifactsNodup (st : GroupState) : Prop :=
  (∀ ep ∈ st.episodes, (ep.artifacts.map Artifact.id).Nodup) ∧
  (∀ ep, st.current = some ep → (ep.artifacts.map Artifact.id).Nodup)

lemma groupStep_artifactsNodup (config : GroupingConfig)
    (refMap : String → Option Artifact) (allArtifacts : List Artifact)
    (st : GroupState) (commit : Commit) (h : stateArtifactsNodup st) :
    stateArtifactsNodup (groupStep config refMap allArtifacts st commit) := by
  obtain ⟨heps, hcur⟩ := h
  unfold groupStep
  rcases hc : st.current with - | cur
  · refine ⟨heps, fun ep hep => ?_⟩
    simp only [Option.some.injEq] at hep
    subst hep
    exact addReferencedArtifacts_nodup _ _ _ _ (by simp [emptyEpisodeWith])
  · dsimp only
    split_ifs with hsim hmin
    · refine ⟨heps, fun ep hep => ?_⟩
      simp only [Option.some.injEq] at hep
      subst hep
      exact addReferencedArtifacts_nodup _ _ _ _ (hcur cur hc)
    · refine ⟨?_, ?_⟩
      · intro ep hep
        replace hep : ep ∈ st.episodes
            ++ [{ cur with id := "E" ++ toString (st.episodes.length + 1) }] := hep
        rcases List.mem_append.mp hep with hin | hone
        · exact heps ep hin
        · rw [List.mem_singleton] at hone
          subst hone
          exact hcur cur hc
      · intro ep hep
        simp only [Option.some.injEq] at hep
        subst hep
        exact addReferencedArtifacts_nodup _ _ _ _ (by simp [emptyEpisodeWith])
    · refine ⟨heps, ?_⟩
      intro ep hep
      simp only [Option.some.injEq] at hep
      subst hep
      exact addReferencedArtifacts_nodup _ _ _ _ (by simp [emptyEpisodeWith])

lemma groupFold_artifactsNodup (config : GroupingConfig)
    (refMap : String → Option Artifact) (allArtifacts : List Artifact)
    (commits : List Commit) (st : GroupState) (h : stateArtifactsNodup st) :
    stateArtifactsNodup (commits.foldl (groupStep config refMap allArtifacts) st) := by
  induction commits generalizing st with
  | nil => exact h
  | cons c rest ih =>
    exact ih _ (groupStep_artifactsNodup config refMap allArtifacts st c h)

lemma flushState_nodup (config : GroupingConfig) (st : GroupState)
    (h : stateArtifactsNodup st) :
    ∀ ep ∈ flushState config st, (ep.artifacts.map Artifact.id).Nodup := by
  unfold flushState
  rcases hc : st.current with - | cur
  · exact fun ep hep => h.1 ep hep
  · dsimp only
    split_ifs with hmin
    · intro ep hep
      rcases List.mem_append.mp hep with hin | hone
      · exact h.1 ep hin
      · rw [List.mem_singleton] at hone
        subst hone
        exact h.2 cur hc
    · exact fun ep hep => h.1 ep hep

lemma groupIntoEpisodes_artifactsNodup (ra : RepositoryActivity)
    (config : GroupingConfig) :
    ∀ ep ∈ GroupIntoEpisodes ra config, (ep.artifacts.map Artifact.id).Nodup := by
  unfold GroupIntoEpisodes
  split_ifs with hempty
  · intro ep hep
    simp at hep
  · intro ep hep
    have hst := groupFold_artifactsNodup config (buildArtifactReferenceMap ra.artifacts)
      ra.artifacts (sortCommitsByTime ra.commits) ⟨[], none⟩
      ⟨by intro e he; simp at he, by intro e he; simp at he⟩
    exact flushState_nodup config _ hst ep hep

/-- C3: after `addReferencedArtifacts` runs for a commit added to an episode
(under the engine's reference index), the episode contains (by identity) the
artifact the index maps each extracted reference to, and every artifact one
of whose discussions carries the commit's full hash; identity uniqueness of
the artifact list is preserved, and every episode emitted by
`GroupIntoEpisodes` has pairwise-distinct artifact identities. -/
theorem addReferencedArtifacts_spec (episode : Episode) (commit : Commit)
    (allArtifacts : List Artifact) :
    (∀ ref ∈ extractArtifactReferences commit.message,
      ∀ art, buildArtifactReferenceMap allArtifacts ref = some art →
        ∃ a ∈ (addReferencedArtifacts episode commit
            (buildArtifactReferenceMap allArtifacts) allArtifacts).artifacts,
          a.id = art.id) ∧
    (∀ art ∈ allArtifacts, (∃ d ∈ art.discussions, d.commitHash = commit.hash) →
      ∃ a ∈ (addReferencedArtifacts episode commit
          (buildArtifactReferenceMap allArtifacts) allArtifacts).artifacts,
        a.id = art.id) ∧
    ((episode.artifacts.map Artifact.id).Nodup →
      ((addReferencedArtifacts episode commit
          (buildArtifactReferenceMap allArtifacts) allArtifacts).artifacts.map
        Artifact.id).Nodup) ∧
    (∀ (ra : RepositoryActivity) (config : GroupingConfig),
      ∀ ep ∈ GroupIntoEpisodes ra config, (ep.artifacts.map Artifact.id).Nodup) := by
  refine ⟨?_, ?_, addReferencedArtifacts_nodup _ _ _ _,
    groupIntoEpisodes_artifactsNodup⟩
  · intro ref href art hmap
    unfold addReferencedArtifacts
    obtain ⟨a, ha, haid⟩ := foldl_addRefStep_adds
      (buildArtifactReferenceMap allArtifacts)
      (extractArtifactReferences commit.message) episode href hmap
    exact ⟨a, foldl_addHashStep_mono commit allArtifacts _ ha, haid⟩
  · intro art hart hdisc
    unfold addReferencedArtifacts
    exact foldl_addHashStep_adds commit allArtifacts _ hart hdisc

/-- Concrete spec scenario S3 through `addReferencedArtifacts_spec`: the
commit `Fix bug #123` attaches artifact `issue-123` (number 123). -/
theorem addReferencedArtifacts_spec_witness :
    ∃ a ∈ (addReferencedArtifacts ⟨"", [mkTestCommit "Fix bug #123" 0], []⟩
        (mkTestCommit "Fix bug #123" 0)
        (buildArtifactReferenceMap [{ id := "issue-123", number := 123, atype := "issue" }])
        [{ id := "issue-123", number := 123, atype := "issue" }]).artifacts,
      a.id = "issue-123" :=
  (addReferencedArtifacts_spec ⟨"", [mkTestCommit "Fix bug #123" 0], []⟩
      (mkTestCommit "Fix bug #123" 0)
      [{ id := "issue-123", number := 123, atype := "issue" }]).1
    "#123"
    (by simp [mkTestCommit, extractArtifactReferences, scanHash, scanKeyword,
        matchCI, numTail])
    { id := "issue-123", number := 123, atype := "issue" }
    (by decide)

/-! ## C1: grouping-loop invariants -/

/-- Committed-at of an episode's first commit (its earliest, once commits are
sorted); `0` for an empty commit list. -/
def episodeMinTime (ep : Episode) : Int :=
  match ep.commits.head? with
  | none => 0
  | some c => c.committedAt

/-- Non-decreasing committed-at along a commit list. -/
def sortedByTime (l : List Commit) : Prop :=
  l.Chain' (fun a b => a.committedAt ≤ b.committedAt)

/-- All commits stored in the loop state (emitted episodes then the episode
under construction). -/
def stateCommits (st : GroupState) : List Commit :=
  (st.episodes.flatMap Episode.commits)
    ++ (match st.current with | none => [] | some ep => ep.commits)

lemma mem_stateCommits {st : GroupState} {d : Commit} :
    d ∈ stateCommits st
      ↔ ((∃ ep ∈ st.episodes, d ∈ ep.commits)
          ∨ (∃ ep, st.current = some ep ∧ d ∈ ep.commits)) := by
  unfold stateCommits
  rcases hc : st.current with - | cur <;> simp [hc]

/-- The loop invariant behind C1: emitted episodes satisfy the min-commits
bound, are non-empty and sorted, carry the identities `E1, E2, …`, have
pairwise non-decreasing first-commit times, and every emitted first-commit
time is bounded by the current episode's first-commit time; the current
episode is non-empty and sorted. -/
def groupInv (config : GroupingConfig) (st : GroupState) : Prop :=
  (∀ ep ∈ st.episodes, config.minCommits ≤ (ep.commits.length : Int)) ∧
  (∀ ep ∈ st.episodes, ep.commits ≠ []) ∧
  (∀ ep ∈ st.episodes, sortedByTime ep.commits) ∧
  (st.episodes.map Episode.id
    = (List.range st.episodes.length).map (fun i => "E" ++ toString (i + 1))) ∧
  ((st.episodes.map episodeMinTime).Pairwise (· ≤ ·)) ∧
  (∀ ep, st.current = some ep → ep.commits ≠ [] ∧ sortedByTime ep.commits) ∧
  (∀ ep ∈ st.episodes, ∀ cur, st.current = some cur →
    episodeMinTime ep ≤ episodeMinTime cur)

lemma episodeMinTime_le_of_sorted {ep : Episode} (hne : ep.commits ≠ [])
    (hs : sortedByTime ep.commits) :
    ∀ c ∈ ep.commits, episodeMinTime ep ≤ c.committedAt := by
  rcases hcl : ep.commits with - | ⟨x, xs⟩
  · exact absurd hcl hne
  · intro c hc
    haveI : IsTrans Commit (fun a b => a.committedAt ≤ b.committedAt) :=
      ⟨fun _ _ _ hab hbc => le_trans hab hbc⟩
    have hp : (x :: xs).Pairwise (fun a b => a.committedAt ≤ b.committedAt) := by
      rw [← List.chain'_iff_pairwise]
      rw [hcl] at hs
      exact hs
    have hmin : episodeMinTime ep = x.committedAt := by
      unfold episodeMinTime
      rw [hcl]
      rfl
    rw [hmin]
    rcases List.mem_cons.mp hc with rfl | hmem
    · exact le_refl _
    · exact (List.pairwise_cons.mp hp).1 c hmem

lemma episodeMinTime_mem_commits {ep : Episode} (hne : ep.commits ≠ []) :
    ∃ c ∈ ep.commits, episodeMinTime ep = c.committedAt := by
  rcases hcl : ep.commits with - | ⟨x, xs⟩
  · exact absurd hcl hne
  · refine ⟨x, by simp [hcl], ?_⟩
    unfold episodeMinTime
    rw [hcl]
    rfl

lemma episodeMinTime_append_commit (ep : Episode) (c : Commit)
    (hne : ep.commits ≠ []) :
    episodeMinTime { ep with commits := ep.commits ++ [c] } = episodeMinTime ep := by
  unfold episodeMinTime
  rcases hcl : ep.commits with - | ⟨x, xs⟩
  · exact absurd hcl hne
  · rfl

lemma episodeMinTime_addReferencedArtifacts (ep : Episode) (c : Commit)
    (refMap : String → Option Artifact) (allArts : List Artifact) :
    episodeMinTime (addReferencedArtifacts ep c refMap allArts)
      = episodeMinTime ep := by
  unfold episodeMinTime
  rw [addReferencedArtifacts_commits]

lemma sortedByTime_addReferencedArtifacts (ep : Episode) (c : Commit)
    (refMap : String → Option Artifact) (allArts : List Artifact) :
    sortedByTime (addReferencedArtifacts ep c refMap allArts).commits
      ↔ sortedByTime ep.commits := by
  unfold sortedByTime
  rw [addReferencedArtifacts_commits]

lemma sortedByTime_append {l : List Commit} {c : Commit}
    (hs : sortedByTime l) (hb : ∀ d ∈ l, d.committedAt ≤ c.committedAt) :
    sortedByTime (l ++ [c]) := by
  unfold sortedByTime at hs ⊢
  rw [List.chain'_append]
  refine ⟨hs, List.chain'_singleton c, ?_⟩
  intro x hx y hy
  rw [List.head?_cons, Option.mem_some_iff] at hy
  subst hy
  exact hb x (List.mem_of_mem_getLast? hx)

lemma groupStep_inv (config : GroupingConfig) (refMap : String → Option Artifact)
    (allArts : List Artifact) (st : GroupState) (c : Commit)
    (hinv : groupInv config st)
    (hbound : ∀ d ∈ stateCommits st, d.committedAt ≤ c.committedAt) :
    groupInv config (groupStep config refMap allArts st c) ∧
    (∀ d ∈ stateCommits (groupStep config refMap allArts st c),
      d ∈ stateCommits st ∨ d = c) := by
  obtain ⟨h1, h2, h3, h4, h5, h6, h7⟩ := hinv
  have hfreshCommits :
      (addReferencedArtifacts (emptyEpisodeWith c) c refMap allArts).commits = [c] := by
    rw [addReferencedArtifacts_commits]
    rfl
  have hfreshMin :
      episodeMinTime (addReferencedArtifacts (emptyEpisodeWith c) c refMap allArts)
        = c.committedAt := by
    unfold episodeMinTime
    rw [hfreshCommits]
    rfl
  unfold groupStep
  rcases hc : st.current with - | cur
  · constructor
    · refine ⟨h1, h2, h3, h4, h5, ?_, ?_⟩
      · intro ep hep
        simp only [Option.some.injEq] at hep
        subst hep
        rw [hfreshCommits]
        exact ⟨by simp, by unfold sortedByTime; exact List.chain'_singleton c⟩
      · intro ep hep cur2 hcur2
        simp only [Option.some.injEq] at hcur2
        subst hcur2
        rw [hfreshMin]
        obtain ⟨d, hd, hdt⟩ := episodeMinTime_mem_commits (h2 ep hep)
        rw [hdt]
        exact hbound d (mem_stateCommits.mpr (Or.inl ⟨ep, hep, hd⟩))
    · intro d hd
      rcases mem_stateCommits.mp hd with ⟨ep, hep, hdc⟩ | ⟨ep, hep, hdc⟩
      · exact Or.inl (mem_stateCommits.mpr (Or.inl ⟨ep, hep, hdc⟩))
      · simp only [Option.some.injEq] at hep
        subst hep
        rw [hfreshCommits] at hdc
        exact Or.inr (List.mem_singleton.mp hdc)
  · have hcurne := (h6 cur hc).1
    have hcursorted := (h6 cur hc).2
    have hcurbound : ∀ d ∈ cur.commits, d.committedAt ≤ c.committedAt := by
      intro d hd
      exact hbound d (mem_stateCommits.mpr (Or.inr ⟨cur, hc, hd⟩))
    dsimp only
    split_ifs with hsim hmin
    · -- append to the current episode
      have happCommits : (addReferencedArtifacts
            { cur with commits := cur.commits ++ [c] } c refMap allArts).commits
          = cur.commits ++ [c] := by
        rw [addReferencedArtifacts_commits]
      constructor
      · refine ⟨h1, h2, h3, h4, h5, ?_, ?_⟩
        · intro ep hep
          simp only [Option.some.injEq] at hep
          subst hep
          rw [happCommits]
          exact ⟨by simp, sortedByTime_append hcursorted hcurbound⟩
        · intro ep hep cur2 hcur2
          simp only [Option.some.injEq] at hcur2
          subst hcur2
          have : episodeMinTime (addReferencedArtifacts
              { cur with commits := cur.commits ++ [c] } c refMap allArts)
              = episodeMinTime cur := by
            rw [episodeMinTime_addReferencedArtifacts,
              episodeMinTime_append_commit _ _ hcurne]
          rw [this]
          exact h7 ep hep cur hc
      · intro d hd
        rcases mem_stateCommits.mp hd with ⟨ep, hep, hdc⟩ | ⟨ep, hep, hdc⟩
        · exact Or.inl (mem_stateCommits.mpr (Or.inl ⟨ep, hep, hdc⟩))
        · simp only [Option.some.injEq] at hep
          subst hep
          rw [happCommits] at hdc
          rcases List.mem_append.mp hdc with hin | hone
          · exact Or.inl (mem_stateCommits.mpr (Or.inr ⟨cur, hc, hin⟩))
          · exact Or.inr (List.mem_singleton.mp hone)
    · -- finalize (emit) and start a new episode
      have hemit : ∀ ep ∈ st.episodes
            ++ [{ cur with id := "E" ++ toString (st.episodes.length + 1) }],
          (ep ∈ st.episodes ∨ ep.commits = cur.commits) := by
        intro ep hep
        rcases List.mem_append.mp hep with hin | hone
        · exact Or.inl hin
        · rw [List.mem_singleton] at hone
          subst hone
          exact Or.inr rfl
      constructor
      · refine ⟨?_, ?_, ?_, ?_, ?_, ?_, ?_⟩
        · intro ep hep
          rcases hemit ep hep with hin | hcm
          · exact h1 ep hin
          · rw [hcm]
            exact hmin
        · intro ep hep
          rcases hemit ep hep with hin | hcm
          · exact h2 ep hin
          · rw [hcm]
            exact hcurne
        · intro ep hep
          rcases hemit ep hep with hin | hcm
          · exact h3 ep hin
          · unfold sortedByTime
            rw [hcm]
            exact hcursorted
        · rw [List.map_append, List.map_singleton, List.length_append,
            List.length_singleton, List.range_succ, List.map_append,
            List.map_singleton, h4]
        · rw [List.map_append, List.map_singleton, List.pairwise_append]
          refine ⟨h5, List.pairwise_singleton _ _, ?_⟩
          intro x hx y hy
          rw [List.mem_singleton] at hy
          subst hy
          obtain ⟨ep, hep, hid⟩ := List.mem_map.mp hx
          rw [← hid, show episodeMinTime { cur with
              id := "E" ++ toString (st.episodes.length + 1) } = episodeMinTime cur
            from rfl]
          exact h7 ep hep cur hc
        · intro ep hep
          simp only [Option.some.injEq] at hep
          subst hep
          rw [hfreshCommits]
          exact ⟨by simp, by unfold sortedByTime; exact List.chain'_singleton c⟩
        · intro ep hep cur2 hcur2
          simp only [Option.some.injEq] at hcur2
          subst hcur2
          rw [hfreshMin]
          rcases hemit ep hep with hin | hcm
          · obtain ⟨d, hd, hdt⟩ := episodeMinTime_mem_commits (h2 ep hin)
            rw [hdt]
            exact hbound d (mem_stateCommits.mpr (Or.inl ⟨ep, hin, hd⟩))
          · obtain ⟨d, hd, hdt⟩ := episodeMinTime_mem_commits
              (by rw [hcm]; exact hcurne)
            rw [hdt]
            rw [hcm] at hd
            exact hcurbound d hd
      · intro d hd
        rcases mem_stateCommits.mp hd with ⟨ep, hep, hdc⟩ | ⟨ep, hep, hdc⟩
        · rcases hemit ep hep with hin | hcm
          · exact Or.inl (mem_stateCommits.mpr (Or.inl ⟨ep, hin, hdc⟩))
          · rw [hcm] at hdc
            exact Or.inl (mem_stateCommits.mpr (Or.inr ⟨cur, hc, hdc⟩))
        · simp only [Option.some.injEq] at hep
          subst hep
          rw [hfreshCommits] at hdc
          exact Or.inr (List.mem_singleton.mp hdc)
    · -- finalize (discard) and start a new episode
      constructor
      · refine ⟨h1, h2, h3, h4, h5, ?_, ?_⟩
        · intro ep hep
          simp only [Option.some.injEq] at hep
          subst hep
          rw [hfreshCommits]
          exact ⟨by simp, by unfold sortedByTime; exact List.chain'_singleton c⟩
        · intro ep hep cur2 hcur2
          simp only [Option.some.injEq] at hcur2
          subst hcur2
          rw [hfreshMin]
          obtain ⟨d, hd, hdt⟩ := episodeMinTime_mem_commits (h2 ep hep)
          rw [hdt]
          exact hbound d (mem_stateCommits.mpr (Or.inl ⟨ep, hep, hd⟩))
      · intro d hd
        rcases mem_stateCommits.mp hd with ⟨ep, hep, hdc⟩ | ⟨ep, hep, hdc⟩
        · exact Or.inl (mem_stateCommits.mpr (Or.inl ⟨ep, hep, hdc⟩))
        · simp only [Option.some.injEq] at hep
          subst hep
          rw [hfreshCommits] at hdc
          exact Or.inr (List.mem_singleton.mp hdc)

lemma groupFold_inv (config : GroupingConfig) (refMap : String → Option Artifact)
    (allArts : List Artifact) :
    ∀ (l : List Commit) (st : GroupState),
      l.Pairwise (fun a b => a.committedAt ≤ b.committedAt) →
      groupInv config st →
      (∀ d ∈ stateCommits st, ∀ e ∈ l, d.committedAt ≤ e.committedAt) →
      groupInv config (l.foldl (groupStep config refMap allArts) st) ∧
      (∀ d ∈ stateCommits (l.foldl (groupStep config refMap allArts) st),
        d ∈ stateCommits st ∨ d ∈ l) := by
  intro l
  induction l with
  | nil => exact fun st _ hinv _ => ⟨hinv, fun d hd => Or.inl hd⟩
  | cons c rest ih =>
    intro st hsorted hinv hbound
    obtain ⟨hstep, hsub⟩ := groupStep_inv config refMap allArts st c hinv
      (fun d hd => hbound d hd c (List.mem_cons_self c rest))
    have hpair := List.pairwise_cons.mp hsorted
    have hbound2 : ∀ d ∈ stateCommits (groupStep config refMap allArts st c),
        ∀ e ∈ rest, d.committedAt ≤ e.committedAt := by
      intro d hd e he
      rcases hsub d hd with hold | rfl
      · exact hbound d hold e (List.mem_cons_of_mem c he)
      · exact hpair.1 e he
    obtain ⟨hinv2, hsub2⟩ := ih _ hpair.2 hstep hbound2
    refine ⟨hinv2, ?_⟩
    intro d hd
    rcases hsub2 d hd with hmid | hrest
    · rcases hsub d hmid with hold | heq
      · exact Or.inl hold
      · exact Or.inr (by rw [heq]; exact List.mem_cons_self c rest)
    · exact Or.inr (List.mem_cons_of_mem c hrest)

lemma flushState_inv (config : GroupingConfig) (st : GroupState)
    (hinv : groupInv config st) :
    (∀ ep ∈ flushState config st, config.minCommits ≤ (ep.commits.length : Int)) ∧
    (∀ ep ∈ flushState config st, ep.commits ≠ []) ∧
    (∀ ep ∈ flushState config st, sortedByTime ep.commits) ∧
    ((flushState config st).map Episode.id
      = (List.range (flushState config st).length).map
          (fun i => "E" ++ toString (i + 1))) ∧
    (((flushState config st).map episodeMinTime).Pairwise (· ≤ ·)) := by
  obtain ⟨h1, h2, h3, h4, h5, h6, h7⟩ := hinv
  unfold flushState
  rcases hc : st.current with - | cur
  · exact ⟨h1, h2, h3, h4, h5⟩
  · dsimp only
    split_ifs with hmin
    · have hemit : ∀ ep ∈ st.episodes
          ++ [{ cur with id := "E" ++ toString (st.episodes.length + 1) }],
          (ep ∈ st.episodes ∨ ep.commits = cur.commits) := by
        intro ep hep
        rcases List.mem_append.mp hep with hin | hone
        · exact Or.inl hin
        · rw [List.mem_singleton] at hone
          subst hone
          exact Or.inr rfl
      refine ⟨?_, ?_, ?_, ?_, ?_⟩
      · intro ep hep
        rcases hemit ep hep with hin | hcm
        · exact h1 ep hin
        · rw [hcm]
          exact hmin
      · intro ep hep
        rcases hemit ep hep with hin | hcm
        · exact h2 ep hin
        · rw [hcm]
          exact (h6 cur hc).1
      · intro ep hep
        rcases hemit ep hep with hin | hcm
        · exact h3 ep hin
        · unfold sortedByTime
          rw [hcm]
          exact (h6 cur hc).2
      · rw [List.map_append, List.map_singleton, List.length_append,
          List.length_singleton, List.range_succ, List.map_append,
          List.map_singleton, h4]
      · rw [List.map_append, List.map_singleton, List.pairwise_append]
        refine ⟨h5, List.pairwise_singleton _ _, ?_⟩
        intro x hx y hy
        rw [List.mem_singleton] at hy
        subst hy
        obtain ⟨ep, hep, hid⟩ := List.mem_map.mp hx
        rw [← hid, show episodeMinTime { cur with
            id := "E" ++ toString (st.episodes.length + 1) } = episodeMinTime cur
          from rfl]
        exact h7 ep hep cur hc
    · exact ⟨h1, h2, h3, h4, h5⟩

lemma groupInv_init (config : GroupingConfig) :
    groupInv config ⟨[], none⟩ := by
  refine ⟨?_, ?_, ?_, rfl, ?_, ?_, ?_⟩
  · intro ep hep
    simp at hep
  · intro ep hep
    simp at hep
  · intro ep hep
    simp at hep
  · simp
  · intro ep hep
    simp at hep
  · intro ep hep
    simp at hep

lemma sortCommitsByTime_pairwise (commits : List Commit) :
    (sortCommitsByTime commits).Pairwise
      (fun a b => a.committedAt ≤ b.committedAt) := by
  unfold sortCommitsByTime
  have hs := @List.sorted_mergeSort Commit
    (fun (a b : Commit) => decide (a.committedAt ≤ b.committedAt))
    (by
      intro a b cc hab hbc
      simp only [decide_eq_true_eq] at hab hbc ⊢
      exact le_trans hab hbc)
    (by
      intro a b
      simp only [Bool.or_eq_true, decide_eq_true_eq]
      exact le_total _ _)
    commits
  haveI : IsTrans Commit
      (fun a b => decide (a.committedAt ≤ b.committedAt) = true) :=
    ⟨by
      intro a b cc hab hbc
      simp only [decide_eq_true_eq] at hab hbc ⊢
      exact le_trans hab hbc⟩
  have hp := List.chain'_iff_pairwise.mp hs.chain'
  refine hp.imp ?_
  intro a b h
  simpa using h

/-- C1: every emitted episode has at least `config.MinCommits` commits; each
episode's commits are non-decreasing by committed-at (so its first commit is
its earliest); the sequence of episode first-commit times is pairwise
non-decreasing across the emission order; and the identities are
`E1, E2, …` assigned 1-based in emission order. -/
theorem groupIntoEpisodes_invariants (ra : RepositoryActivity)
    (config : GroupingConfig) :
    (∀ ep ∈ GroupIntoEpisodes ra config,
      config.minCommits ≤ (ep.commits.length : Int)) ∧
    (∀ ep ∈ GroupIntoEpisodes ra config,
      ep.commits ≠ [] ∧ sortedByTime ep.commits ∧
        ∀ c ∈ ep.commits, episodeMinTime ep ≤ c.committedAt) ∧
    ((GroupIntoEpisodes ra config).map Episode.id
      = (List.range (GroupIntoEpisodes ra config).length).map
          (fun i => "E" ++ toString (i + 1))) ∧
    (((GroupIntoEpisodes ra config).map episodeMinTime).Pairwise (· ≤ ·)) := by
  unfold GroupIntoEpisodes
  split_ifs with hempty
  · refine ⟨?_, ?_, rfl, ?_⟩
    · intro ep hep
      simp at hep
    · intro ep hep
      simp at hep
    · simp
  · have hfold := groupFold_inv config (buildArtifactReferenceMap ra.artifacts)
      ra.artifacts (sortCommitsByTime ra.commits) ⟨[], none⟩
      (sortCommitsByTime_pairwise ra.commits) (groupInv_init config)
      (by intro d hd; simp [stateCommits] at hd)
    have hf := flushState_inv config _ hfold.1
    exact ⟨hf.1, fun ep hep =>
        ⟨hf.2.1 ep hep, hf.2.2.1 ep hep,
          episodeMinTime_le_of_sorted (hf.2.1 ep hep) (hf.2.2.1 ep hep)⟩,
      hf.2.2.2.1, hf.2.2.2.2⟩

/-- Spec edge case (single commit, `min_commits = 1`) exercised through
`groupIntoEpisodes_invariants`: the single emitted episode `E1` satisfies the
min-commits bound and its first commit realizes the episode minimum time. -/
theorem groupIntoEpisodes_invariants_witness :
    DefaultGroupingConfig.minCommits
      ≤ (((⟨"E1", [mkTestCommit "init" 5], []⟩ : Episode)).commits.length : Int) ∧
    episodeMinTime (⟨"E1", [mkTestCommit "init" 5], []⟩ : Episode)
      ≤ (mkTestCommit "init" 5).committedAt := by
  have heval : GroupIntoEpisodes { commits := [mkTestCommit "init" 5] }
      DefaultGroupingConfig = [⟨"E1", [mkTestCommit "init" 5], []⟩] := by
    simp [GroupIntoEpisodes, sortCommitsByTime, groupStep, flushState,
      addReferencedArtifacts, extractArtifactReferences, scanHash, scanKeyword,
      matchCI, numTail, mkTestCommit, emptyEpisodeWith, DefaultGroupingConfig,
      Episode.mk.injEq, List.mergeSort]
    decide
  have hmem : (⟨"E1", [mkTestCommit "init" 5], []⟩ : Episode)
      ∈ GroupIntoEpisodes { commits := [mkTestCommit "init" 5] }
          DefaultGroupingConfig := by
    rw [heval]
    exact List.mem_singleton.mpr rfl
  exact ⟨(groupIntoEpisodes_invariants { commits := [mkTestCommit "init" 5] }
      DefaultGroupingConfig).1 _ hmem,
    ((groupIntoEpisodes_invariants { commits := [mkTestCommit "init" 5] }
      DefaultGroupingConfig).2.1 _ hmem).2.2
      (mkTestCommit "init" 5) (List.mem_cons_self _ _)⟩

/-! ## C6: retriever (rag retriever, `RetrieveContextForEpisode`)

The embedder and the vector store are external collaborators reached over
I/O; they are modelled as pure response maps (`none` = the call errored),
which is all the retriever observes of them. Vector components and scores
(`float32`) are modinterpreted over `ℚ`. -/

/-- Go struct `rag.SearchOptions` (metadata filters modelled as key-value
pairs; the retriever only passes them through). -/
structure SearchOptions where
  episodeIDs : List String := []
  repository : String := ""
  metadata : List (String × String) := []
  deriving Repr, DecidableEq

/-- Go struct `rag.ContextChunk`. -/
structure ContextChunk where
  episodeID : String
  text : String
  score : ℚ
  startDate : Time := 0
  endDate : Time := 0
  authors : List String := []
  commitCount : Int := 0
  fileCount : Int := 0
  deriving Repr, DecidableEq

/-- Go struct `rag.EmbeddingRecord` (the fields the retriever reads). -/
structure EmbeddingRecord where
  text : String := ""
  embedding : List ℚ := []
  model : String := ""
  deriving Repr, DecidableEq

/-- A `rag.Retriever` together with its two collaborators' behaviour:
`embed` (the embedder), `storeQuery` (existence map; Go maps report `false`
for missing keys) and `storeSearch` (vector search; the first argument is
the query vector, `none` for Go `nil`). -/
structure Retriever where
  embed : List String → Option (List EmbeddingRecord)
  storeQuery : List String → Option (String → Bool)
  storeSearch : Option (List ℚ) → Int → SearchOptions → Option (List ContextChunk)

/-- The filtering loop of `RetrieveContextForEpisode` (part_013:90-98):
append chunks whose episode identity differs, stopping once `topK` are
collected. -/
def filterTake (episodeID : String) : Nat → List ContextChunk → List ContextChunk
  | _, [] => []
  | topK, ch :: rest =>
    if ch.episodeID ≠ episodeID then
      ch :: (if topK ≤ 1 then [] else filterTake episodeID (topK - 1) rest)
    else filterTake episodeID topK rest

/-- Go `RetrieveContextForEpisode` (part_013:30-101): validate inputs, check
existence via `Query`, fetch the episode's stored text by a single-record
filtered search, embed it, search `topK+1` under the caller's repository and
metadata options (never re-filtering to the episode), then drop self-hits
and truncate to `topK`. -/
def RetrieveContextForEpisode (r : Retriever) (episodeID : String) (topK : Int)
    (opts : Option SearchOptions) : Except String (List ContextChunk) :=
  if episodeID = "" then .error "episode ID cannot be empty"
  else if topK ≤ 0 then .error "topK must be positive"
  else
    match r.storeQuery [episodeID] with
    | none => .error "failed to check episode existence"
    | some existenceMap =>
      if ¬ existenceMap episodeID then .error "episode not found in vector store"
      else
        let searchOpts : SearchOptions :=
          match opts with
          | some o => { repository := o.repository, metadata := o.metadata }
          | none => {}
        match r.storeSearch none 1 { episodeIDs := [episodeID] } with
        | none => .error "failed to retrieve episode"
        | some [] => .error "episode not found"
        | some (episode :: _) =>
          match r.embed [episode.text] with
          | none => .error "failed to embed episode text"
          | some [] => .error "no embedding generated for episode"
          | some (rec0 :: _) =>
            match r.storeSearch (some rec0.embedding) (topK + 1) searchOpts with
            | none => .error "failed to search similar episodes"
            | some chunks => .ok (filterTake episodeID topK.toNat chunks)

lemma filterTake_eq_filter_take (episodeID : String) (k : Nat) (hk : 1 ≤ k)
    (l : List ContextChunk) :
    filterTake episodeID k l
      = (l.filter (fun ch => ch.episodeID ≠ episodeID)).take k := by
  induction l generalizing k with
  | nil => simp [filterTake]
  | cons ch rest ih =>
    simp only [filterTake]
    by_cases hch : ch.episodeID ≠ episodeID
    · rw [if_pos (by simpa using hch), List.filter_cons_of_pos (by simpa using hch)]
      by_cases hk1 : k ≤ 1
      · have hkk : k = 1 := le_antisymm hk1 hk
        subst hkk
        simp
      · rw [if_neg hk1, ih (k - 1) (by omega)]
        have hkk : k = (k - 1) + 1 := by omega
        conv_rhs => rw [hkk]
        rw [List.take_succ_cons]
    · rw [if_neg (by simpa using hch), List.filter_cons_of_neg (by simpa using hch),
        ih k hk]

/-- C6: `RetrieveContextForEpisode` fails whenever the store's existence
query reports the episode absent; on success the returned chunks are the
result of a `topK+1` search with the self-episode dropped and truncated to
`topK`, so at most `topK` chunks come back and none carries the episode's
own identity. -/
theorem retrieveContextForEpisode_spec (r : Retriever) (episodeID : String)
    (topK : Int) (opts : Option SearchOptions) :
    (∀ em, r.storeQuery [episodeID] = some em → em episodeID = false →
      ∃ e, RetrieveContextForEpisode r episodeID topK opts = .error e) ∧
    (∀ chunks, RetrieveContextForEpisode r episodeID topK opts = .ok chunks →
      (∃ qv searchOpts res,
        r.storeSearch (some qv) (topK + 1) searchOpts = some res ∧
          chunks = (res.filter (fun ch => ch.episodeID ≠ episodeID)).take topK.toNat) ∧
      chunks.length ≤ topK.toNat ∧
      ∀ ch ∈ chunks, ch.episodeID ≠ episodeID) := by
  constructor
  · intro em hq hfalse
    by_cases h1 : episodeID = ""
    · exact ⟨_, by rw [RetrieveContextForEpisode.eq_def, if_pos h1]⟩
    · by_cases h2 : topK ≤ 0
      · exact ⟨_, by rw [RetrieveContextForEpisode.eq_def, if_neg h1, if_pos h2]⟩
      · refine ⟨"episode not found in vector store", ?_⟩
        rw [RetrieveContextForEpisode.eq_def, if_neg h1, if_neg h2, hq]
        simp [hfalse]
  · intro chunks hok
    by_cases h1 : episodeID = ""
    · rw [RetrieveContextForEpisode.eq_def, if_pos h1] at hok
      exact absurd hok (by simp)
    · by_cases h2 : topK ≤ 0
      · rw [RetrieveContextForEpisode.eq_def, if_neg h1, if_pos h2] at hok
        exact absurd hok (by simp)
      · rw [RetrieveContextForEpisode.eq_def, if_neg h1, if_neg h2] at hok
        rcases hq : r.storeQuery [episodeID] with - | em
        · rw [hq] at hok
          exact absurd hok (by simp)
        · rw [hq] at hok
          dsimp only at hok
          by_cases hex : em episodeID
          · rw [if_neg (by simpa using hex)] at hok
            rcases hs1 : r.storeSearch none 1 { episodeIDs := [episodeID] } with - | epChunks
            · rw [hs1] at hok
              exact absurd hok (by simp)
            · rcases epChunks with - | ⟨episode, restEp⟩
              · rw [hs1] at hok
                exact absurd hok (by simp)
              · rw [hs1] at hok
                dsimp only at hok
                rcases he : r.embed [episode.text] with - | recs
                · rw [he] at hok
                  exact absurd hok (by simp)
                · rcases recs with - | ⟨rec0, restRec⟩
                  · rw [he] at hok
                    exact absurd hok (by simp)
                  · rw [he] at hok
                    dsimp only at hok
                    split at hok
                    · exact absurd hok (by simp)
                    · rename_i res hs2
                      simp only [Except.ok.injEq] at hok
                      have hk1 : 1 ≤ topK.toNat := by omega
                      have hchunks : chunks
                          = (res.filter (fun ch => ch.episodeID ≠ episodeID)).take
                              topK.toNat := by
                        rw [← hok, filterTake_eq_filter_take episodeID _ hk1]
                      refine ⟨⟨rec0.embedding, _, res, hs2, hchunks⟩, ?_, ?_⟩
                      · rw [hchunks]
                        exact le_trans (List.length_take_le _ _) (le_refl _)
                      · intro ch hch
                        rw [hchunks] at hch
                        have hmem := List.mem_of_mem_take hch
                        have := List.of_mem_filter hmem
                        simpa using this
          · rw [if_pos (by simpa using hex)] at hok
            exact absurd hok (by simp)

/-- Concrete spec scenario S6 through `retrieveContextForEpisode_spec`: three
indexed episodes, `RetrieveContextForEpisode("E1", 2)` returns two chunks
with identities other than `E1`. -/
def wsChunkSelf : ContextChunk := { episodeID := "E1", text := "self", score := 1 }

/-- Retrieved neighbour chunk `E2`. -/
def wsChunkA : ContextChunk := { episodeID := "E2", text := "a", score := 9 / 10 }

/-- Retrieved neighbour chunk `E3`. -/
def wsChunkB : ContextChunk := { episodeID := "E3", text := "b", score := 8 / 10 }

/-- A concrete retriever: every episode of `E1 E2 E3` exists; the filtered
single-record search returns the episode's own record; the `topK+1` search
returns the self chunk first, then the two neighbours. -/
def wsRetriever : Retriever :=
  { embed := fun _ => some [{ text := "self", embedding := [1], model := "m" }]
    storeQuery := fun _ => some (fun id => id = "E1" ∨ id = "E2" ∨ id = "E3")
    storeSearch := fun qv _ _ =>
      match qv with
      | none => some [wsChunkSelf]
      | some _ => some [wsChunkSelf, wsChunkA, wsChunkB] }

theorem retrieveContextForEpisode_spec_witness :
    wsChunkA.episodeID ≠ "E1" ∧
    ([wsChunkA, wsChunkB] : List ContextChunk).length ≤ (2 : Int).toNat :=
  have hok : RetrieveContextForEpisode wsRetriever "E1" 2 none
      = .ok [wsChunkA, wsChunkB] := by
    rw [RetrieveContextForEpisode.eq_def]
    simp [wsRetriever, filterTake, wsChunkSelf, wsChunkA, wsChunkB]
  ⟨((retrieveContextForEpisode_spec wsRetriever "E1" 2 none).2
      [wsChunkA, wsChunkB] hok).2.2 wsChunkA (by simp),
    ((retrieveContextForEpisode_spec wsRetriever "E1" 2 none).2
      [wsChunkA, wsChunkB] hok).2.1⟩

/-! ## C7: hybrid-search augmentation (internal/orchestrator/rag.go)

Helper episode methods (internal/cluster/episodeutils.go). Where the Go code
iterates a map to build a slice whose order nothing in the claims depends on,
the embedding uses first-insertion order. -/

/-- Go `Episode.GetDateRange` (episodeutils.go:118): earliest/latest over
commit times and artifact created/updated/closed/merged times, skipping zero
times. -/
def GetDateRange (e : Episode) : Time × Time :=
  let fromCommits := e.commits.foldl (fun (p : Time × Time) commit =>
    let commitTime := commit.committedAt
    if commitTime = 0 then p
    else
      let e1 := if p.1 = 0 ∨ commitTime < p.1 then commitTime else p.1
      let l1 := if p.2 = 0 ∨ p.2 < commitTime then commitTime else p.2
      (e1, l1)) (0, 0)
  e.artifacts.foldl (fun (p : Time × Time) artifact =>
    let p1 := if artifact.createdAt ≠ 0 ∧ (p.1 = 0 ∨ artifact.createdAt < p.1)
      then (artifact.createdAt, p.2) else p
    let p2 := if artifact.updatedAt ≠ 0 ∧ (p1.2 = 0 ∨ p1.2 < artifact.updatedAt)
      then (p1.1, artifact.updatedAt) else p1
    let p3 := match artifact.closedAt with
      | some t => if t ≠ 0 ∧ (p2.2 = 0 ∨ p2.2 < t) then (p2.1, t) else p2
      | none => p2
    match artifact.mergedAt with
    | some t => if t ≠ 0 ∧ (p3.2 = 0 ∨ p3.2 < t) then (p3.1, t) else p3
    | none => p3) fromCommits

/-- Go `Episode.GetAuthorNames` (episodeutils.go:90): unique non-empty author
names from commits then artifacts (set; first-insertion order). -/
def GetAuthorNames (e : Episode) : List String :=
  let fromCommits := e.commits.foldl (fun acc commit =>
    if commit.author.name ≠ "" ∧ commit.author.name ∉ acc
    then acc ++ [commit.author.name] else acc) []
  e.artifacts.foldl (fun acc artifact =>
    if artifact.author.name ≠ "" ∧ artifact.author.name ∉ acc
    then acc ++ [artifact.author.name] else acc) fromCommits

/-- Go `Episode.GetCommitAuthors` (episodeutils.go:10): unique authors by
email (first occurrence kept; first-insertion order). -/
def GetCommitAuthors (e : Episode) : List Author :=
  e.commits.foldl (fun acc commit =>
    if acc.any (fun a => a.email = commit.author.email) then acc
    else acc ++ [commit.author]) []

/-- Go `Episode.GetFileCount` (episodeutils.go:166): count of unique file
paths (old paths included when distinct); if a change proposal's metadata
reports more changed files than the set holds, that count is returned
(the Go loop returns early on the first such artifact). -/
def GetFileCount (e : Episode) : Int :=
  let fileSet := e.commits.foldl (fun acc commit =>
    commit.diffs.foldl (fun acc2 diff =>
      let acc3 := if diff.filePath ≠ "" ∧ diff.filePath ∉ acc2
        then acc2 ++ [diff.filePath] else acc2
      if diff.oldPath ≠ "" ∧ diff.oldPath ≠ diff.filePath ∧ diff.oldPath ∉ acc3
        then acc3 ++ [diff.oldPath] else acc3) acc) []
  match e.artifacts.find? (fun artifact =>
      (artifact.atype = "pull_request" ∨ artifact.atype = "merge_request")
        ∧ (fileSet.length : Int) < artifact.metadata.changedFiles) with
  | some artifact => artifact.metadata.changedFiles
  | none => (fileSet.length : Int)

/-- Rendering of a `git.Author` through Go's `%s` verb (the struct's fields
in braces); the `time.Time` field is rendered through `toString` of the
instant, a faithful-enough stand-in since no claim depends on its shape. -/
def goFormatAuthor (a : Author) : String :=
  "\x7b" ++ a.name ++ " " ++ a.email ++ " " ++ toString a.whenAt ++ "\x7d"

/-- Go `generateEpisodeSummaryText` (rag.go:334): commits section (first 5,
then a `… and n more` line), artifacts section (first 20, with type-specific
`PR #n` / `Issue #n` lines and descriptions truncated to 500), authors
section (first author, then up to 4 more comma-prefixed). -/
def generateEpisodeSummaryText (ep : Episode) : String :=
  let commitsPart :=
    if ep.commits.isEmpty then ""
    else
      "Commits (" ++ toString ep.commits.length ++ "):\n"
        ++ String.join ((ep.commits.take 5).map (fun c =>
            "- " ++ c.message ++ " (by " ++ c.author.name ++ ")\n"))
        ++ (if 5 < ep.commits.length then
              "... and " ++ toString (ep.commits.length - 5) ++ " more commits\n"
            else "")
  let artifactLine := fun (a : Artifact) =>
    (if a.atype = "pull_request" then
        "- PR #" ++ toString a.number ++ ": " ++ a.title ++ "\n"
      else if a.atype = "issue" then
        "- Issue #" ++ toString a.number ++ ": " ++ a.title ++ "\n"
      else
        "- " ++ a.atype ++ " #" ++ toString a.number ++ ": " ++ a.title ++ "\n")
      ++ (if a.description ≠ "" then
            "  Description: "
              ++ (if 500 < a.description.length
                  then a.description.take 500 ++ "..." else a.description)
              ++ "\n"
          else "")
  let artifactsPart :=
    if ep.artifacts.isEmpty then ""
    else
      "\nArtifacts (" ++ toString ep.artifacts.length ++ "):\n"
        ++ String.join ((ep.artifacts.take 20).map artifactLine)
        ++ (if 20 < ep.artifacts.length then
              "... and " ++ toString (ep.artifacts.length - 20) ++ " more artifacts\n"
            else "")
  let authors := GetCommitAuthors ep
  let authorsPart :=
    match authors with
    | [] => ""
    | a0 :: rest =>
      "\nAuthors: " ++ goFormatAuthor a0 ++ "\n"
        ++ String.join ((rest.take 4).map (fun a => ", " ++ goFormatAuthor a))
  commitsPart ++ artifactsPart ++ authorsPart

/-- Go's `\s` character class (RE2 without Unicode classes):
`[\t\n\f\r ]`. -/
def isGoSpace (c : Char) : Bool :=
  c = ' ' ∨ c = '\t' ∨ c = '\n' ∨ c = '\x0c' ∨ c = '\r'

/-- Tail `\s*#?(\d+)` of the hybrid-search pattern, after the keyword:
maximal whitespace, an optional `#` (taken only when digits follow it), then
one or more digits; returns the captured digits and the rest. -/
def queryNumTail (rest : List Char) : Option (List Char × List Char) :=
  match rest.drop (rest.takeWhile isGoSpace).length with
  | '#' :: rest3 =>
    let digs := rest3.takeWhile Char.isDigit
    if digs.isEmpty then none else some (digs, rest3.drop digs.length)
  | rest2 =>
    let digs := rest2.takeWhile Char.isDigit
    if digs.isEmpty then none else some (digs, rest2.drop digs.length)

lemma queryNumTail_length {rest : List Char} {mr : List Char × List Char}
    (h : queryNumTail rest = some mr) : mr.2.length < rest.length := by
  unfold queryNumTail at h
  have hd : (rest.drop (rest.takeWhile isGoSpace).length).length ≤ rest.length := by
    rw [List.length_drop]
    omega
  split at h
  next rest3 heq =>
    dsimp only at h
    split_ifs at h with hdig
    simp only [Option.some.injEq] at h
    have hle := length_takeWhile_le Char.isDigit rest3
    rw [heq, List.length_cons] at hd
    simp only [← h, List.length_drop]
    omega
  next =>
    dsimp only at h
    split_ifs at h with hdig
    simp only [Option.some.injEq] at h
    have hlen : ((rest.drop (rest.takeWhile isGoSpace).length).takeWhile
        Char.isDigit).length ≠ 0 := by
      simpa [List.isEmpty_iff, List.length_eq_zero] using hdig
    have hle := length_takeWhile_le Char.isDigit
      (rest.drop (rest.takeWhile isGoSpace).length)
    simp only [← h, List.length_drop]
    omega

/-- One match attempt of the hybrid-search pattern
`(?i)(?:pr|pull request|issue)\s*#?(\d+)` (rag.go:224) at a fixed position:
the three keywords tried case-insensitively (their first two letters make
them mutually exclusive), then the numeric tail. -/
def queryAttempt (l : List Char) : Option (List Char × List Char) :=
  match matchCI ("pr").data l with
  | some pr => queryNumTail pr.2
  | none =>
    match matchCI ("pull request").data l with
    | some pr => queryNumTail pr.2
    | none =>
      match matchCI ("issue").data l with
      | some pr => queryNumTail pr.2
      | none => none

lemma queryAttempt_length {l : List Char} {mr : List Char × List Char}
    (h1 : queryAttempt l = some mr) : mr.2.length < l.length := by
  unfold queryAttempt at h1
  rcases hm1 : matchCI ("pr").data l with - | pr1
  · rcases hm2 : matchCI ("pull request").data l with - | pr2
    · rcases hm3 : matchCI ("issue").data l with - | pr3
      · rw [hm1, hm2, hm3] at h1
        simp at h1
      · rw [hm1, hm2, hm3] at h1
        exact lt_of_lt_of_le (queryNumTail_length h1) (matchCI_length hm3)
    · rw [hm1, hm2] at h1
      exact lt_of_lt_of_le (queryNumTail_length h1) (matchCI_length hm2)
  · rw [hm1] at h1
    exact lt_of_lt_of_le (queryNumTail_length h1) (matchCI_length hm1)

/-- Scanner for the hybrid-search pattern: leftmost, non-overlapping
matches; the captured digit strings are collected in order. -/
def scanQueryRefs : List Char → List String
  | [] => []
  | c :: cs =>
    if h : (queryAttempt (c :: cs)).isSome then
      String.mk ((queryAttempt (c :: cs)).get h).1
        :: scanQueryRefs ((queryAttempt (c :: cs)).get h).2
    else scanQueryRefs cs
termination_by l => l.length
decreasing_by
  · exact queryAttempt_length (Option.some_get ‹_›).symm
  · simp

/-- Captured artifact numbers of the query, in match order, through
`strconv.Atoi` (failures skipped). -/
def hybridNumbers (query : String) : List Int :=
  (scanQueryRefs query.data).filterMap (fun ds => goAtoi ds.data)

/-- The first episode holding an artifact with the given number
(rag.go:232-239 with its `break`). -/
def firstEpisodeWithNumber (episodes : List Episode) (n : Int) : Option Episode :=
  episodes.find? (fun ep => ep.artifacts.any (fun art => art.number = n))

/-- The synthetic exact-match chunk (rag.go:253-263): the episode's summary
text with score 1.0 and its aggregate metadata. -/
def syntheticChunk (ep : Episode) : ContextChunk :=
  { episodeID := ep.id
    text := generateEpisodeSummaryText ep
    score := 1
    startDate := (GetDateRange ep).1
    endDate := (GetDateRange ep).2
    authors := GetAuthorNames ep
    commitCount := (ep.commits.length : Int)
    fileCount := GetFileCount ep }

/-- Processing of one captured number (rag.go:227-273): find the first
episode holding the number; if none of the current context chunks carries its
identity, prepend the synthetic chunk. -/
def hybridStep (episodes : List Episode) (ctx : List ContextChunk) (n : Int) :
    List ContextChunk :=
  match firstEpisodeWithNumber episodes n with
  | some ep =>
    if ctx.any (fun chunk => chunk.episodeID = ep.id) then ctx
    else syntheticChunk ep :: ctx
  | none => ctx

/-- The hybrid-search augmentation of `GenerateProjectNarrativeRAG`
(rag.go:222-279): all captured numbers processed in order, then the context
truncated to `MaxContextSize` (a non-negative count). -/
def hybridAugment (query : String) (episodes : List Episode)
    (contextChunks : List ContextChunk) (maxContextSize : Nat) :
    List ContextChunk :=
  let augmented := (hybridNumbers query).foldl (hybridStep episodes) contextChunks
  if maxContextSize < augmented.length then augmented.take maxContextSize
  else augmented

lemma hybridStep_mono (episodes : List Episode) (ctx : List ContextChunk)
    (n : Int) {ch : ContextChunk} (h : ch ∈ ctx) :
    ch ∈ hybridStep episodes ctx n := by
  unfold hybridStep
  rcases firstEpisodeWithNumber episodes n with - | ep
  · exact h
  · dsimp only
    split_ifs
    · exact h
    · exact List.mem_cons_of_mem _ h

lemma hybridFold_mono (episodes : List Episode) (ns : List Int)
    (ctx : List ContextChunk) {ch : ContextChunk} (h : ch ∈ ctx) :
    ch ∈ ns.foldl (hybridStep episodes) ctx := by
  induction ns generalizing ctx with
  | nil => exact h
  | cons n rest ih => exact ih _ (hybridStep_mono episodes ctx n h)

lemma hybridFold_structure (episodes : List Episode) (ns : List Int)
    (ctx : List ContextChunk) :
    ∃ pre, ns.foldl (hybridStep episodes) ctx = pre ++ ctx ∧
      ∀ ch ∈ pre, ∃ n ∈ ns, ∃ ep, firstEpisodeWithNumber episodes n = some ep
        ∧ ch = syntheticChunk ep := by
  induction ns generalizing ctx with
  | nil => exact ⟨[], rfl, by simp⟩
  | cons n rest ih =>
    rw [List.foldl_cons]
    rcases hfind : firstEpisodeWithNumber episodes n with - | ep
    · rw [show hybridStep episodes ctx n = ctx by unfold hybridStep; rw [hfind]]
      obtain ⟨pre, heq, hpre⟩ := ih ctx
      refine ⟨pre, heq, fun ch hch => ?_⟩
      obtain ⟨m, hm, hrest⟩ := hpre ch hch
      exact ⟨m, List.mem_cons_of_mem n hm, hrest⟩
    · by_cases hin : ctx.any (fun chunk => chunk.episodeID = ep.id)
      · rw [show hybridStep episodes ctx n = ctx by
          unfold hybridStep; rw [hfind]; simp [hin]]
        obtain ⟨pre, heq, hpre⟩ := ih ctx
        refine ⟨pre, heq, fun ch hch => ?_⟩
        obtain ⟨m, hm, hrest⟩ := hpre ch hch
        exact ⟨m, List.mem_cons_of_mem n hm, hrest⟩
      · rw [show hybridStep episodes ctx n = syntheticChunk ep :: ctx by
          unfold hybridStep; rw [hfind]; simp [hin]]
        obtain ⟨pre, heq, hpre⟩ := ih (syntheticChunk ep :: ctx)
        refine ⟨pre ++ [syntheticChunk ep], by rw [heq]; simp, ?_⟩
        intro ch hch
        rcases List.mem_append.mp hch with hch1 | hch2
        · obtain ⟨m, hm, hrest⟩ := hpre ch hch1
          exact ⟨m, List.mem_cons_of_mem n hm, hrest⟩
        · rw [List.mem_singleton] at hch2
          subst hch2
          exact ⟨n, List.mem_cons_self n rest, ep, hfind, rfl⟩

lemma hybridFold_covers (episodes : List Episode) (ns : List Int)
    (ctx : List ContextChunk) :
    ∀ n ∈ ns, ∀ ep, firstEpisodeWithNumber episodes n = some ep →
      ∃ ch ∈ ns.foldl (hybridStep episodes) ctx, ch.episodeID = ep.id := by
  induction ns generalizing ctx with
  | nil => intro n hn; simp at hn
  | cons m rest ih =>
    intro n hn ep hfind
    rcases List.mem_cons.mp hn with rfl | hn2
    · have hstep : ∃ ch ∈ hybridStep episodes ctx n, ch.episodeID = ep.id := by
        unfold hybridStep
        rw [hfind]
        dsimp only
        split_ifs with hin
        · obtain ⟨ch, hch, hcheq⟩ := List.any_eq_true.mp hin
          exact ⟨ch, hch, of_decide_eq_true hcheq⟩
        · exact ⟨syntheticChunk ep, List.mem_cons_self _ _, rfl⟩
      obtain ⟨ch, hch, hcheq⟩ := hstep
      exact ⟨ch, hybridFold_mono episodes rest _ hch, hcheq⟩
    · exact ih (hybridStep episodes ctx m) n hn2 ep hfind

/-- C7: in the hybrid-search augmentation, every chunk added to the retrieved
context is the synthetic summary chunk (score 1.0, text the episode's summary
text) of the first episode holding some captured number, prepended in front
of the original context; for every captured number whose artifact exists in
some episode, the pre-truncation context carries that episode's identity;
and the final context is the truncation of the augmented context to at most
`MaxContextSize` chunks. -/
theorem hybridAugment_spec (query : String) (episodes : List Episode)
    (ctx : List ContextChunk) (maxSize : Nat) :
    (∃ pre, (hybridNumbers query).foldl (hybridStep episodes) ctx = pre ++ ctx ∧
      ∀ ch ∈ pre, ∃ n ∈ hybridNumbers query, ∃ ep,
        firstEpisodeWithNumber episodes n = some ep ∧ ch = syntheticChunk ep
          ∧ ch.score = 1 ∧ ch.text = generateEpisodeSummaryText ep) ∧
    (∀ n ∈ hybridNumbers query, ∀ ep,
      firstEpisodeWithNumber episodes n = some ep →
        ∃ ch ∈ (hybridNumbers query).foldl (hybridStep episodes) ctx,
          ch.episodeID = ep.id) ∧
    (hybridAugment query episodes ctx maxSize
      = ((hybridNumbers query).foldl (hybridStep episodes) ctx).take maxSize) ∧
    (hybridAugment query episodes ctx maxSize).length ≤ maxSize := by
  have htrunc : hybridAugment query episodes ctx maxSize
      = ((hybridNumbers query).foldl (hybridStep episodes) ctx).take maxSize := by
    simp only [hybridAugment]
    split_ifs with hlen
    · rfl
    · rw [List.take_of_length_le (by omega)]
  refine ⟨?_, hybridFold_covers episodes (hybridNumbers query) ctx, htrunc, ?_⟩
  · obtain ⟨pre, heq, hpre⟩ := hybridFold_structure episodes (hybridNumbers query) ctx
    refine ⟨pre, heq, ?_⟩
    intro ch hch
    obtain ⟨n, hn, ep, hfind, hsyn⟩ := hpre ch hch
    exact ⟨n, hn, ep, hfind, hsyn, by rw [hsyn]; rfl, by rw [hsyn]; rfl⟩
  · rw [htrunc]
    exact le_trans (List.length_take_le _ _) (le_refl _)

/-- Episode for spec scenario S5: holds the artifact with number 42 and is
not among the semantically retrieved chunks. -/
def epS5 : Episode :=
  { id := "E7", commits := [],
    artifacts := [{ id := "pr-42", number := 42, atype := "pull_request" }] }

/-- Concrete spec scenario S5 through `hybridAugment_spec`: for the query
`What happened in PR #42?` the episode holding artifact number 42 is
represented in the augmented context. -/
theorem hybridAugment_spec_witness :
    ∃ ch ∈ (hybridNumbers "What happened in PR #42?").foldl
        (hybridStep [epS5]) [], ch.episodeID = "E7" :=
  (hybridAugment_spec "What happened in PR #42?" [epS5] [] 10).2.1 42
    (by
      simp [hybridNumbers, scanQueryRefs, queryAttempt, matchCI, queryNumTail,
        isGoSpace, goAtoi, goAtoiCore, digitsVal, List.takeWhile_cons,
        List.takeWhile_nil])
    epS5 (by decide)

/-! ## C8: prompt assembly (narrative `AssemblePrompt`) -/

/-- Go `getTimeRange` (prompt assembly): earliest and latest committed-at of
the commits, zero times for an empty list. -/
def getTimeRange : List Commit → Time × Time
  | [] => (0, 0)
  | c :: cs => cs.foldl (fun (p : Time × Time) x =>
      (if x.committedAt < p.1 then x.committedAt else p.1,
       if p.2 < x.committedAt then x.committedAt else p.2))
      (c.committedAt, c.committedAt)

/-- Go `getUniqueAuthors`: trimmed non-empty author names, deduplicated in
first-occurrence order, then sorted ascending. -/
def getUniqueAuthors (commits : List Commit) : List String :=
  (commits.foldl (fun acc c =>
    let name := c.author.name.trim
    if name = "" then acc
    else if name ∈ acc then acc
    else acc ++ [name]) []).mergeSort (fun a b => a ≤ b)

/-- Civil date from a count of days since 1970-01-01 (proleptic Gregorian;
the standard era-based conversion). -/
def civilFromDays (z0 : Int) : Int × Int × Int :=
  let z := z0 + 719468
  let era := Int.fdiv z 146097
  let doe := z - era * 146097
  let yoe := Int.fdiv (doe - Int.fdiv doe 1460 + Int.fdiv doe 36524
    - Int.fdiv doe 146096) 365
  let y := yoe + era * 400
  let doy := doe - (365 * yoe + Int.fdiv yoe 4 - Int.fdiv yoe 100)
  let mp := Int.fdiv (5 * doy + 2) 153
  let d := doy - Int.fdiv (153 * mp + 2) 5 + 1
  let m := mp + (if mp < 10 then 3 else -9)
  (y + (if m ≤ 2 then 1 else 0), m, d)

/-- Zero-padded two-digit rendering of `0 ≤ n < 100`. -/
def pad2 (n : Int) : String :=
  if n < 10 then "0" ++ toString n else toString n

/-- Go `t.Format("2006-01-02")` on the embedding's instant (nanoseconds since
the zero time 0001-01-01T00:00:00 UTC). -/
def goFormatDate (t : Time) : String :=
  let daysSinceYear1 := Int.fdiv t 86400000000000
  let c := civilFromDays (daysSinceYear1 - 719162)
  toString c.1 ++ "-" ++ pad2 c.2.1 ++ "-" ++ pad2 c.2.2

/-- Go `formatDateOrNA`: `N/A` for the zero time, else the formatted date. -/
def formatDateOrNA (t : Time) : String :=
  if t = 0 then "N/A" else goFormatDate t

/-- Go `%.2f` on a score, modelled with round-half-up on the rational's
numerator and denominator (claims do not depend on tie-rounding). -/
def formatScore2 (q : ℚ) : String :=
  let n : Int := Int.fdiv (q.num * 200 + (q.den : Int)) (2 * (q.den : Int))
  let sign := if n < 0 then "-" else ""
  let a : Int := (n.natAbs : Int)
  sign ++ toString (Int.fdiv a 100) ++ "." ++ pad2 (a % 100)

/-- The stable descending-score sort of `AssemblePrompt` (part_011:27):
`sort.SliceStable` with `Score_i > Score_j`, i.e. a stable merge sort under
`b.score ≤ a.score`. -/
def sortChunksByScore (chunks : List ContextChunk) : List ContextChunk :=
  chunks.mergeSort (fun a b => b.score ≤ a.score)

/-- Go `assembleEpisodePrompt` (part_011:32): preamble, episode block (id,
commit count, time range, sorted unique authors, commit bullet list with
7-character hashes), artifact block (count, type/number/title bullets with
descriptions truncated to 200), related-context block when non-empty, and
the fixed task instruction. -/
def assembleEpisodePrompt (ep : Episode) (contextChunks : List ContextChunk) :
    String :=
  let tr := getTimeRange ep.commits
  let authors := getUniqueAuthors ep.commits
  "You are a technical writer specializing in software development narratives. "
    ++ "Your task is to generate a coherent, human-readable narrative that explains "
    ++ "what happened during this development episode and why it matters.\n\n"
    ++ "# Episode to Summarize\n\n"
    ++ "**Episode ID:** " ++ ep.id ++ "\n\n"
    ++ "**Commits:** " ++ toString ep.commits.length ++ " commits\n\n"
    ++ "**Time Range:** " ++ formatDateOrNA tr.1 ++ " to " ++ formatDateOrNA tr.2
    ++ "\n\n"
    ++ (if authors.isEmpty then "**Authors:** N/A\n\n"
        else "**Authors:** " ++ String.intercalate ", " authors ++ "\n\n")
    ++ "**Commit Messages:**\n"
    ++ (if ep.commits.isEmpty then "- (none)\n\n"
        else String.join (ep.commits.map (fun c =>
            "- " ++ (if 7 < c.hash.length then c.hash.take 7 else c.hash)
              ++ " " ++ c.message ++ " (by " ++ c.author.name ++ ")\n"))
          ++ "\n")
    ++ "**Related Artifacts:** " ++ toString ep.artifacts.length ++ " items\n\n"
    ++ (if ep.artifacts.isEmpty then "- (none)\n\n"
        else String.join (ep.artifacts.map (fun a =>
            "- **" ++ a.atype ++ " #" ++ toString a.number ++ ":** " ++ a.title
              ++ "\n"
              ++ (if a.description ≠ "" then
                    "  " ++ (if 200 < a.description.length
                        then a.description.take 200 ++ "..."
                        else a.description) ++ "\n"
                  else "")))
          ++ "\n")
    ++ (if contextChunks.isEmpty then ""
        else "# Related Development Context\n\n"
          ++ "The following are similar episodes from the repository history that may provide useful context:\n\n"
          ++ String.join (contextChunks.map (fun ch =>
              "**Episode " ++ ch.episodeID ++ "** (relevance: "
                ++ formatScore2 ch.score ++ ")\n" ++ ch.text ++ "\n\n")))
    ++ "# Task\n\n"
    ++ "Generate a narrative summary (2-4 paragraphs) that:\n"
    ++ "1. Explains what was accomplished in this episode\n"
    ++ "2. Describes the technical approach and key decisions\n"
    ++ "3. Connects this work to related development efforts\n"
    ++ "4. Highlights the impact and significance of the changes\n\n"
    ++ "Write in past tense, use clear technical language, and focus on the 'why' behind the changes, not just the 'what'. "
    ++ "Do not invent details or motivations; base all statements strictly on the episode data and provided context. "
    ++ "Use related episodes only for background and connections, not as actions performed in this episode. "
    ++ "Explain technical decisions and tradeoffs rather than restating commit messages verbatim.\n"

/-- Go `AssemblePrompt` (part_011:19): a nil target episode fails with the
missing-target error; otherwise sort a copy of the context chunks stably by
descending score and render the deterministic prompt. -/
def AssemblePrompt (targetEpisode : Option Episode)
    (contextChunks : List ContextChunk) : Except String String :=
  match targetEpisode with
  | none => .error "target episode required for episode-level narrative"
  | some ep => .ok (assembleEpisodePrompt ep (sortChunksByScore contextChunks))

/-- Two stably-sorted-by-descending-score lists that are permutations of one
another and have pairwise-distinct scores are equal. -/
lemma sorted_desc_perm_eq : ∀ {m m' : List ContextChunk},
    m.Perm m' →
    m.Pairwise (fun a b => b.score ≤ a.score) →
    m'.Pairwise (fun a b => b.score ≤ a.score) →
    m.Pairwise (fun a b => a.score ≠ b.score) →
    m = m' := by
  intro m
  induction m with
  | nil =>
    intro m' hp _ _ _
    exact (hp.symm.eq_nil).symm
  | cons a t ih =>
    intro m' hp hs1 hs2 hd
    rcases m' with - | ⟨b, t'⟩
    · exact absurd hp.eq_nil (by simp)
    · have hab : a = b := by
        rcases List.mem_cons.mp (hp.mem_iff.mp (List.mem_cons_self a t)) with
          heq | hat'
        · exact heq
        · rcases List.mem_cons.mp (hp.symm.mem_iff.mp (List.mem_cons_self b t'))
            with heq | hbt
          · exact heq.symm
          · have h1 : a.score ≤ b.score := (List.pairwise_cons.mp hs2).1 a hat'
            have h2 : b.score ≤ a.score := (List.pairwise_cons.mp hs1).1 b hbt
            exact absurd (le_antisymm h1 h2) ((List.pairwise_cons.mp hd).1 b hbt)
      subst hab
      have ht := hp.cons_inv
      rw [ih ht (List.pairwise_cons.mp hs1).2 (List.pairwise_cons.mp hs2).2
        (List.pairwise_cons.mp hd).2]

/-- Target episode of the tie counterexample. -/
def cxEp : Episode := ⟨"E0", [], []⟩

/-- First tied chunk (score 1, episode `E1`). -/
def cxA : ContextChunk := { episodeID := "E1", text := "a", score := 1 }

/-- Second tied chunk (score 1, episode `E2`). -/
def cxB : ContextChunk := { episodeID := "E2", text := "b", score := 1 }

/-- C8 fails on the code as stated: re-ordering the input context chunks does
change the prompt when two chunks tie on score, because the stable sort keeps
tied chunks in input order — swapping the two tied chunks of this concrete
input yields different prompts. -/
theorem assemblePrompt_counterexample :
    AssemblePrompt (some cxEp) [cxA, cxB] ≠ AssemblePrompt (some cxEp) [cxB, cxA] := by
  have hs1 : sortChunksByScore [cxA, cxB] = [cxA, cxB] :=
    List.mergeSort_of_sorted (by decide)
  have hs2 : sortChunksByScore [cxB, cxA] = [cxB, cxA] :=
    List.mergeSort_of_sorted (by decide)
  intro heq
  simp only [AssemblePrompt, hs1, hs2, Except.ok.injEq] at heq
  have hga : getUniqueAuthors ([] : List Commit) = [] :=
    List.mergeSort_of_sorted List.Pairwise.nil
  simp only [assembleEpisodePrompt, cxEp] at heq
  rw [hga] at heq
  exact absurd heq (by decide)

/-- C8 (amended): `AssemblePrompt` of a nil episode fails with the
missing-target error; it is a pure function (two calls on the same inputs
give byte-identical prompts); and re-ordering the input context chunks
yields the same prompt provided the chunks' scores are pairwise distinct
(with tied scores, the stable sort keeps the input order of the ties, so
such re-orderings can change the prompt). -/
theorem assemblePrompt_amended :
    (∀ chunks, AssemblePrompt none chunks
        = .error "target episode required for episode-level narrative") ∧
    (∀ ep chunks, AssemblePrompt (some ep) chunks
        = AssemblePrompt (some ep) chunks) ∧
    (∀ (ep : Episode) (chunks chunks' : List ContextChunk), chunks.Perm chunks' →
      chunks.Pairwise (fun a b => a.score ≠ b.score) →
      AssemblePrompt (some ep) chunks = AssemblePrompt (some ep) chunks') := by
  refine ⟨fun chunks => rfl, fun ep chunks => rfl, ?_⟩
  intro ep chunks chunks' hperm hdist
  have htrans : ∀ a b c : ContextChunk,
      (fun a b => decide (b.score ≤ a.score)) a b = true →
      (fun a b => decide (b.score ≤ a.score)) b c = true →
      (fun a b => decide (b.score ≤ a.score)) a c = true := by
    intro a b c hab hbc
    simp only [decide_eq_true_eq] at hab hbc ⊢
    exact le_trans hbc hab
  have htotal : ∀ a b : ContextChunk,
      ((fun a b => decide (b.score ≤ a.score)) a b
        || (fun a b => decide (b.score ≤ a.score)) b a) = true := by
    intro a b
    simp only [Bool.or_eq_true, decide_eq_true_eq]
    exact le_total b.score a.score
  have hsort : sortChunksByScore chunks = sortChunksByScore chunks' := by
    refine sorted_desc_perm_eq ?_ ?_ ?_ ?_
    · exact ((List.mergeSort_perm chunks _).trans hperm).trans
        (List.mergeSort_perm chunks' _).symm
    · exact (List.sorted_mergeSort htrans htotal chunks).imp
        (fun h => by simpa using h)
    · exact (List.sorted_mergeSort htrans htotal chunks').imp
        (fun h => by simpa using h)
    · refine (List.Perm.pairwise_iff ?_ (List.mergeSort_perm chunks _)).mpr hdist
      intro x y h
      exact Ne.symm h
  simp only [AssemblePrompt, hsort]

/-- Concrete check of the amended C8: with distinct scores, swapping the two
input chunks leaves the prompt unchanged. -/
theorem assemblePrompt_amended_witness :
    AssemblePrompt (some cxEp)
        [{ episodeID := "E1", text := "a", score := 1 },
         { episodeID := "E2", text := "b", score := 2 }]
      = AssemblePrompt (some cxEp)
        [{ episodeID := "E2", text := "b", score := 2 },
         { episodeID := "E1", text := "a", score := 1 }] :=
  assemblePrompt_amended.2.2 cxEp
    [{ episodeID := "E1", text := "a", score := 1 },
     { episodeID := "E2", text := "b", score := 2 }]
    [{ episodeID := "E2", text := "b", score := 2 },
     { episodeID := "E1", text := "a", score := 1 }]
    (by decide) (by decide)

end ThunkSpec
